import Mathlib

/-!
# Verification of the cleanarg token classification and assignment engine

A shallow embedding of the core parsing functions of the `cleanarg`
command-line parser (`cleanarg.go`), together with theorems settling the
frozen claims about its specification.

Modelling conventions:
* Go strings are modelled as `List Char` (`GoStr`).  All tokens handled by
  the package are ASCII (flag syntax is restricted to ASCII alphanumerics),
  so Go's byte indexing (`s[0:2]`, `s[2:]`) coincides with character
  indexing.
* The Go `map[string]fieldInfo` of options is modelled as an association
  list; `populateDefaults` iterates it in list order (Go map iteration
  order is unspecified, and no claim depends on it).
* Errors created with `fmt.Errorf` are modelled by an inductive `GoError`
  whose constructors correspond to the distinct error messages of the
  source.
* The reflection-based struct destination is modelled as a function from
  field names to `FieldValue`; `reflect`'s `field.Set` becomes a function
  update.  A Go nil slice corresponds to any non-slice `FieldValue` at a
  slice field (the field's zero value); appending to it creates a fresh
  one-element slice, mirroring the `MakeSlice` step of `populateField`.
-/

abbrev GoStr := List Char

/-- Shorthand for turning a string literal into the `GoStr` model. -/
def gs (s : String) : GoStr := s.toList

/-- The permitted base types of struct fields (the `allowedTypes` registry
of the source: `bool`, `string`, `int`, `float64`, `time.Time`,
`time.Duration`). -/
inductive GoType where
  | bool
  | string
  | int
  | float64
  | time
  | duration
deriving DecidableEq, Repr

/-- Embeds the `fieldInfo` record of the source: the inferred base type and
slice-ness of the field, the `arg-default` and `arg-format` tag values, and
the `flag`/`value` registers filled in during token processing.  The `help`
tag and `allFlags` (used only by usage printing, outside the verified core)
are omitted. -/
structure FieldInfo where
  name : GoStr
  baseType : GoType
  isSlice : Bool
  defaultval : GoStr
  format : GoStr
  flag : GoStr := []
  value : GoStr := []
deriving DecidableEq, Repr

instance : Inhabited FieldInfo :=
  ⟨{ name := [], baseType := .string, isSlice := false,
     defaultval := [], format := [] }⟩

/-- The option map of the source (`map[string]fieldInfo`), keyed on the
flag spelling. -/
abbrev Options := List (GoStr × FieldInfo)

/-- The distinct errors produced by the source (`fmt.Errorf` messages) plus
the conversion failures bubbled up from `strconv`/`time`. -/
inductive GoError where
  /-- The error "Unexpected %s in compound flag". -/
  | unexpectedCompoundFlag (token : GoStr)
  /-- The error "not enough tokens: %s". -/
  | notEnoughTokens (flag : GoStr)
  /-- The error "at most one positional may be slice". -/
  | atMostOnePositionalSlice
  /-- The error "number of positional fields does not match number of tokens". -/
  | positionalCountMismatch
  /-- The error "not enough tokens to fill all positional fields". -/
  | notEnoughPositionalTokens
  /-- The error "error populating positional field %d". -/
  | errorPopulatingPositional (i : Nat)
  /-- The error "error populating slice of positionals". -/
  | errorPopulatingSlice
  /-- Any `strconv.Atoi` / `strconv.ParseFloat` / `time.Parse` /
  `time.ParseDuration` failure returned from `convertToType` -/
  | conversionError
deriving DecidableEq, Repr

/-- The components of a parsed `time.Time` value (only the fields the
modelled layout tokens can set). -/
structure TimeVal where
  year : Nat
  month : Nat
  day : Nat
  hour : Nat
  minute : Nat
  second : Nat
deriving DecidableEq, Repr

/-- A typed scalar Go value produced by `convertToType`. -/
inductive GoValue where
  | vBool (b : Bool)
  | vString (s : GoStr)
  | vInt (i : Int)
  /-- Holds a float64, represented by the accepted literal that produced it (no
  claim observes floating-point arithmetic, only parse success) -/
  | vFloat (lit : GoStr)
  | vTime (t : TimeVal)
  /-- Holds a `time.Duration` in nanoseconds. -/
  | vDuration (ns : Int)
deriving DecidableEq, Repr

/-- The content of one struct field: a scalar, or a slice of scalars.
`zero` stands for the zero value a field holds before anything is written
to it (for a slice field this is Go's nil slice). -/
inductive FieldValue where
  | zero
  | scalar (v : GoValue)
  | slice (l : List GoValue)
deriving DecidableEq, Repr

/-- The end-of-options marker `"--"` (`endFlagsIndicator` in the source). -/
def endFlagsIndicator : GoStr := ['-', '-']

/-- Models `strings.HasPrefix(s, p)`. -/
def goStartsWith : GoStr → GoStr → Bool
  | _, [] => true
  | [], _ :: _ => false
  | c :: s, d :: p => c == d && goStartsWith s p

theorem goStartsWith_two (s : GoStr) (a b : Char)
    (h : goStartsWith s [a, b] = true) : ∃ t, s = a :: b :: t := by
  match s with
  | [] => simp [goStartsWith] at h
  | [c] => simp [goStartsWith] at h
  | c :: d :: t =>
    refine ⟨t, ?_⟩
    simp [goStartsWith] at h
    obtain ⟨h1, h2⟩ := h
    subst h1
    subst h2
    rfl

theorem goStartsWith_one (s : GoStr) (a : Char)
    (h : goStartsWith s [a] = true) : ∃ t, s = a :: t := by
  match s with
  | [] => simp [goStartsWith] at h
  | c :: t =>
    refine ⟨t, ?_⟩
    simp [goStartsWith] at h
    subst h
    rfl

/-- Models `strings.Cut(s, sep)` for a one-character separator: splits
around the first occurrence, returning (before, after, found); when the
separator is absent, returns (s, "", false). -/
def goCut (sep : Char) : GoStr → GoStr × GoStr × Bool
  | [] => ([], [], false)
  | c :: rest =>
    if c = sep then ([], rest, true)
    else (c :: (goCut sep rest).1, (goCut sep rest).2.1, (goCut sep rest).2.2)

theorem goCut_cons (sep c : Char) (rest : GoStr) :
    goCut sep (c :: rest) =
      if c = sep then ([], rest, true)
      else (c :: (goCut sep rest).1, (goCut sep rest).2.1, (goCut sep rest).2.2) :=
  rfl

theorem goCut_fst_of_not_found (sep : Char) (s : GoStr)
    (h : (goCut sep s).2.2 = false) : (goCut sep s).1 = s := by
  induction s with
  | nil => rfl
  | cons c rest ih =>
    rw [goCut_cons] at h ⊢
    by_cases hc : c = sep
    · rw [if_pos hc] at h
      simp at h
    · rw [if_neg hc] at h ⊢
      simp at h ⊢
      exact ih h

theorem goCut_rest_of_not_found (sep : Char) (s : GoStr)
    (h : (goCut sep s).2.2 = false) : (goCut sep s).2.1 = [] := by
  induction s with
  | nil => rfl
  | cons c rest ih =>
    rw [goCut_cons] at h ⊢
    by_cases hc : c = sep
    · rw [if_pos hc] at h
      simp at h
    · rw [if_neg hc] at h ⊢
      exact ih h

theorem goCut_append_of_found (sep : Char) (s : GoStr)
    (h : (goCut sep s).2.2 = true) :
    s = (goCut sep s).1 ++ sep :: (goCut sep s).2.1 ∧ sep ∉ (goCut sep s).1 := by
  induction s with
  | nil => simp [goCut] at h
  | cons c rest ih =>
    rw [goCut_cons] at h ⊢
    by_cases hc : c = sep
    · rw [if_pos hc] at h ⊢
      simp [hc]
    · rw [if_neg hc] at h ⊢
      obtain ⟨h1, h2⟩ := ih h
      constructor
      · show c :: rest = (c :: (goCut sep rest).1) ++ sep :: (goCut sep rest).2.1
        rw [List.cons_append]
        exact congrArg (c :: ·) h1
      · show sep ∉ c :: (goCut sep rest).1
        simp [h2]
        exact fun hcs => hc hcs.symm

theorem goCut_found_iff_mem (sep : Char) (s : GoStr) :
    (goCut sep s).2.2 = true ↔ sep ∈ s := by
  induction s with
  | nil => simp [goCut]
  | cons c rest ih =>
    rw [goCut_cons]
    by_cases hc : c = sep
    · rw [if_pos hc]
      simp [hc]
    · rw [if_neg hc]
      simp only [List.mem_cons]
      constructor
      · intro h
        exact Or.inr (ih.mp h)
      · intro h
        rcases h with h | h
        · exact absurd h.symm hc
        · exact ih.mpr h

theorem goCut_fst_cons (sep c : Char) (rest : GoStr) (hc : c ≠ sep) :
    (goCut sep (c :: rest)).1 = c :: (goCut sep rest).1 := by
  rw [goCut_cons, if_neg hc]

/-- Embeds `chopToken` of the source: if the token looks like a flag, chop
the flag part from the rest and return both; otherwise return the token and
an empty remainder. -/
def chopToken (s : GoStr) : GoStr × GoStr :=
  if s = ['-', '-'] ∨ s = ['-'] ∨ s = ['+'] then
    (s, [])
  else if goStartsWith s ['-', '-'] then
    ((goCut '=' s).1, (goCut '=' s).2.1)
  else if goStartsWith s ['-'] || goStartsWith s ['+'] then
    (s.take 2, s.drop 2)
  else
    (s, [])

theorem chopToken_bare (s : GoStr)
    (h : s = ['-', '-'] ∨ s = ['-'] ∨ s = ['+']) : chopToken s = (s, []) := by
  unfold chopToken
  rw [if_pos h]

theorem chopToken_dd (s : GoStr)
    (h1 : ¬(s = ['-', '-'] ∨ s = ['-'] ∨ s = ['+']))
    (h2 : goStartsWith s ['-', '-'] = true) :
    chopToken s = ((goCut '=' s).1, (goCut '=' s).2.1) := by
  unfold chopToken
  rw [if_neg h1, if_pos h2]

theorem chopToken_single (s : GoStr)
    (h1 : ¬(s = ['-', '-'] ∨ s = ['-'] ∨ s = ['+']))
    (h2 : ¬goStartsWith s ['-', '-'] = true)
    (h3 : (goStartsWith s ['-'] || goStartsWith s ['+']) = true) :
    chopToken s = (s.take 2, s.drop 2) := by
  unfold chopToken
  rw [if_neg h1, if_neg h2, if_pos h3]

theorem chopToken_other (s : GoStr)
    (h1 : ¬(s = ['-', '-'] ∨ s = ['-'] ∨ s = ['+']))
    (h2 : ¬goStartsWith s ['-', '-'] = true)
    (h3 : ¬(goStartsWith s ['-'] || goStartsWith s ['+']) = true) :
    chopToken s = (s, []) := by
  unfold chopToken
  rw [if_neg h1, if_neg h2, if_neg h3]

theorem chopToken_rest_length (s : GoStr) (h : (chopToken s).2 ≠ []) :
    (chopToken s).2.length + 1 < s.length := by
  by_cases h1 : s = ['-', '-'] ∨ s = ['-'] ∨ s = ['+']
  · rw [chopToken_bare s h1] at h
    exact absurd rfl h
  by_cases h2 : goStartsWith s ['-', '-'] = true
  · rw [chopToken_dd s h1 h2] at h ⊢
    by_cases hf : (goCut '=' s).2.2 = true
    · have hlen : s.length = (goCut '=' s).1.length + 1 + (goCut '=' s).2.1.length := by
        obtain ⟨happ, -⟩ := goCut_append_of_found '=' s hf
        conv_lhs => rw [happ]
        simp
        omega
      obtain ⟨t, ht⟩ := goStartsWith_two s '-' '-' h2
      have hfst : 0 < (goCut '=' s).1.length := by
        rw [ht, goCut_fst_cons '=' '-' ('-' :: t) (by decide)]
        simp
      simp only
      omega
    · rw [goCut_rest_of_not_found '=' s (by simpa using hf)] at h
      exact absurd rfl h
  by_cases h3 : (goStartsWith s ['-'] || goStartsWith s ['+']) = true
  · rw [chopToken_single s h1 h2 h3] at h ⊢
    have hlen : 2 < s.length := by
      by_contra hle
      push_neg at hle
      exact h (List.drop_eq_nil_of_le hle)
    simp only [List.length_drop]
    omega
  · rw [chopToken_other s h1 h2 h3] at h
    exact absurd rfl h

/-- The body of the token-processing loop of `processMaybeFlags`: `token`
is the pending-token register, `tokens` the remaining queue, `isCompound`
records whether we are mid-way through a compound short flag.  Resolved
flags and positional tokens are emitted in encounter order. -/
def processLoop (options : Options) (isFused : Bool) :
    GoStr → List GoStr → Bool → Except GoError (List FieldInfo × List GoStr)
  | token, tokens, isCompound =>
    if hT : token = [] then
      -- loop condition: stop when both register and queue are empty;
      -- otherwise pop the queue and reset the compound marker
      match tokens with
      | [] => .ok ([], [])
      | t :: ts => processLoop options isFused t ts false
    else
      let flag := (chopToken token).1
      let rest := (chopToken token).2
      match options.lookup flag with
      | none =>
        -- when parsing a compound flag, all flags should be recognized
        if isCompound then
          .error (.unexpectedCompoundFlag token)
        else
          -- not recognized as flag: treat as positional
          Except.map (fun r => (r.1, token :: r.2))
            (processLoop options isFused [] tokens isCompound)
      | some info =>
        if hB : (info.baseType == GoType.bool) = (rest == []) then
          -- Complete: boolean with empty rest, or non-boolean with value
          Except.map (fun r => ({ info with flag := flag, value := rest } :: r.1, r.2))
            (processLoop options isFused [] tokens isCompound)
        else if hBo : (info.baseType == GoType.bool) = true then
          -- Compound: use rest to form the new pending token
          Except.map (fun r => ({ info with flag := flag, value := [] } :: r.1, r.2))
            (processLoop options isFused ('-' :: rest) tokens true)
        else
          -- Incomplete: if fused use the default value, else the next token
          if isFused then
            Except.map
              (fun r => ({ info with flag := flag, value := info.defaultval } :: r.1, r.2))
              (processLoop options isFused [] tokens isCompound)
          else
            match tokens with
            | t :: ts =>
              Except.map (fun r => ({ info with flag := flag, value := t } :: r.1, r.2))
                (processLoop options isFused [] ts isCompound)
            | [] => .error (.notEnoughTokens flag)
termination_by token tokens _ => (tokens.map List.length).sum + tokens.length + token.length
decreasing_by
  all_goals simp_wf
  all_goals
    first
    | omega
    | (simp only [List.map_cons, List.sum_cons, List.length_cons, List.length_nil]
       omega)
    | (have hTl := List.length_pos.mpr hT
       omega)
    | (have hTl := List.length_pos.mpr hT
       simp only [List.map_cons, List.sum_cons, List.length_cons]
       omega)
    | (have hBr : ¬(info.baseType == GoType.bool) = ((chopToken token).2 == []) := hB
       have hrest : (chopToken token).2 ≠ [] := by
         intro hnil
         rw [hnil] at hBr
         simp [hBo] at hBr
       have hlen1 := chopToken_rest_length token hrest
       have hlen2 : rest.length + 1 < token.length := hlen1
       try simp only [List.length_cons]
       omega)
    | (have hBr : ¬(info.baseType == GoType.bool) = ((chopToken token).2 == []) := hB
       have hrest : (chopToken token).2 ≠ [] := by
         intro hnil
         rw [hnil] at hBr
         simp [hBo] at hBr
       have hlen1 := chopToken_rest_length token hrest
       try simp only [List.length_cons]
       omega)

/-- Embeds `processMaybeFlags` of the source: resolves a slice of tokens
against the option map, returning resolved flags (with values filled in)
and residual positional tokens. -/
def processMaybeFlags (tokens : List GoStr) (options : Options)
    (isFused : Bool) : Except GoError (List FieldInfo × List GoStr) :=
  processLoop options isFused [] tokens false

/-- Embeds `processTokens3` of the source: splits the token list on the
first `"--"`, runs `processMaybeFlags` on the prefix, and appends all
tokens after the marker verbatim to the positionals.  (On a resolver error
the Go function also returns the post-marker tokens next to the non-nil
error; callers inspect only the error then, which the `Except` model
captures.) -/
def processTokens3 (options : Options) (tokens : List GoStr)
    (isFused : Bool) : Except GoError (List FieldInfo × List GoStr) :=
  let endFlags := tokens.findIdx (fun t => t == endFlagsIndicator)
  match processMaybeFlags (tokens.take endFlags) options isFused with
  | .error e => .error e
  | .ok r => .ok (r.1, r.2 ++ tokens.drop (endFlags + 1))

/-- In the source, `processTokens` dispatches to `processTokens3`. -/
def processTokens (options : Options) (tokens : List GoStr)
    (isFused : Bool) : Except GoError (List FieldInfo × List GoStr) :=
  processTokens3 options tokens isFused

/-! ## Type conversion (`convertToType` and the stdlib parsers it calls) -/

/-- All-decimal-digit check plus decimal value (helper for the stdlib
parser models). Returns `none` on an empty or non-digit string. -/
def parseDigits (s : GoStr) : Option Nat :=
  if s = [] then none
  else if s.all Char.isDigit then
    some (s.foldl (fun a c => 10 * a + (c.toNat - 48)) 0)
  else none

/-- Models `strconv.Atoi`: an optional sign followed by at least one
decimal digit, spanning the whole string, with the result required to fit
in a 64-bit `int`. -/
def goAtoi (s : GoStr) : Option Int :=
  let body : Int × GoStr :=
    match s with
    | '+' :: r => (1, r)
    | '-' :: r => (-1, r)
    | r => (1, r)
  match parseDigits body.2 with
  | none => none
  | some n =>
    let v : Int := body.1 * n
    if v < -(2 ^ 63) ∨ v > 2 ^ 63 - 1 then none else some v

/-- Case-insensitive equality of two character lists (helper for the
special forms of `strconv.ParseFloat`). -/
def strCaseEq : GoStr → GoStr → Bool
  | [], [] => true
  | a :: s, b :: t => a.toLower == b.toLower && strCaseEq s t
  | _, _ => false

/-- Models the success domain of `strconv.ParseFloat(s, 64)`: an optional
sign followed by a decimal mantissa (digits, with an optional fractional
part, at least one digit in total) and an optional exponent, or one of the
special forms `inf`/`infinity` (optionally signed) and `nan`.  The
hexadecimal and underscored literal forms Go additionally accepts are not
modelled; no claim exercises them. -/
def goParseFloatOk (s : GoStr) : Bool :=
  let body : GoStr :=
    match s with
    | '+' :: r => r
    | '-' :: r => r
    | r => r
  if strCaseEq body (gs "inf") || strCaseEq body (gs "infinity") then true
  else if strCaseEq s (gs "nan") then true
  else
    let d1 := body.takeWhile Char.isDigit
    let r1 := body.dropWhile Char.isDigit
    let mant : GoStr × Bool :=
      match r1 with
      | '.' :: r =>
        (r.dropWhile Char.isDigit, !d1.isEmpty || !(r.takeWhile Char.isDigit).isEmpty)
      | r => (r, !d1.isEmpty)
    mant.2 &&
      (match mant.1 with
       | [] => true
       | 'e' :: r =>
         let r2 : GoStr :=
           match r with
           | '+' :: x => x
           | '-' :: x => x
           | x => x
         !r2.isEmpty && r2.all Char.isDigit
       | 'E' :: r =>
         let r2 : GoStr :=
           match r with
           | '+' :: x => x
           | '-' :: x => x
           | x => x
         !r2.isEmpty && r2.all Char.isDigit
       | _ => false)

/-- The duration-unit table of `time.ParseDuration`, in nanoseconds. -/
def unitToNs : GoStr → Option Int
  | ['n', 's'] => some 1
  | ['u', 's'] => some 1000
  | ['µ', 's'] => some 1000
  | ['μ', 's'] => some 1000
  | ['m', 's'] => some 1000000
  | ['s'] => some 1000000000
  | ['m'] => some 60000000000
  | ['h'] => some 3600000000000
  | _ => none

/-- One pass of the component loop of `time.ParseDuration`: parses
`digits[.digits]unit` components and sums their values.  The fractional
part is evaluated with exact integer arithmetic truncated toward zero
(Go evaluates it in floating point; no claim observes values where the
two differ).  Structural recursion on a character budget; each component
consumes at least its (non-empty) unit. -/
def durLoop : Nat → GoStr → Option Int
  | _, [] => some 0
  | 0, _ :: _ => none
  | fuel + 1, s =>
    let intPart := s.takeWhile Char.isDigit
    let r1 := s.dropWhile Char.isDigit
    let frac : GoStr × GoStr :=
      match r1 with
      | '.' :: r => (r.takeWhile Char.isDigit, r.dropWhile Char.isDigit)
      | r => ([], r)
    if intPart = [] ∧ frac.1 = [] then none
    else
      let unit := frac.2.takeWhile (fun c => !(c = '.' || c.isDigit))
      let r3 := frac.2.dropWhile (fun c => !(c = '.' || c.isDigit))
      if unit = [] then none
      else
        match unitToNs unit with
        | none => none
        | some mult =>
          let intVal : Int := intPart.foldl (fun a c => 10 * a + ((c.toNat : Int) - 48)) 0
          let fracVal : Int := frac.1.foldl (fun a c => 10 * a + ((c.toNat : Int) - 48)) 0
          let contribution := intVal * mult + fracVal * mult / (10 ^ frac.1.length : Int)
          match durLoop fuel r3 with
          | none => none
          | some acc => some (contribution + acc)

/-- Models `time.ParseDuration`: an optionally signed, non-empty sequence
of `digits[.digits]unit` components, with `"0"` allowed bare. -/
def goParseDuration (s : GoStr) : Option Int :=
  let body : Int × GoStr :=
    match s with
    | '-' :: r => (-1, r)
    | '+' :: r => (1, r)
    | r => (1, r)
  if body.2 = ['0'] then some 0
  else if body.2 = [] then none
  else
    match durLoop body.2.length body.2 with
    | none => none
    | some v => some (body.1 * v)

/-- Reads exactly two decimal digits (Go's fixed-width `getnum`). -/
def take2Digits (s : GoStr) : Option (Nat × GoStr) :=
  match s with
  | a :: b :: r =>
    if a.isDigit && b.isDigit then some (10 * (a.toNat - 48) + (b.toNat - 48), r)
    else none
  | _ => none

/-- Reads one or two decimal digits (Go's non-fixed `getnum`, used for the
`15` hour token). -/
def take1or2Digits (s : GoStr) : Option (Nat × GoStr) :=
  match s with
  | a :: b :: r =>
    if a.isDigit && b.isDigit then some (10 * (a.toNat - 48) + (b.toNat - 48), r)
    else if a.isDigit then some (a.toNat - 48, b :: r)
    else none
  | [a] => if a.isDigit then some (a.toNat - 48, []) else none
  | [] => none

/-- Reads exactly four decimal digits (the `2006` year token). -/
def take4Digits (s : GoStr) : Option (Nat × GoStr) :=
  match s with
  | a :: b :: c :: d :: r =>
    if a.isDigit && b.isDigit && c.isDigit && d.isDigit then
      some (1000 * (a.toNat - 48) + 100 * (b.toNat - 48) + 10 * (c.toNat - 48)
              + (d.toNat - 48), r)
    else none
  | _ => none

/-- Models the layout-interpreting loop of `time.Parse`, restricted to the
layout tokens this package uses (`2006`, `01`, `02`, `15`, `04`, `05`,
literal characters).  Any other layout character must match the value
literally. -/
def timeParseLoop : GoStr → GoStr → TimeVal → Option TimeVal
  | '2' :: '0' :: '0' :: '6' :: restL, v, acc =>
    match take4Digits v with
    | none => none
    | some r => timeParseLoop restL r.2 { acc with year := r.1 }
  | '0' :: '1' :: restL, v, acc =>
    match take2Digits v with
    | none => none
    | some r => timeParseLoop restL r.2 { acc with month := r.1 }
  | '0' :: '2' :: restL, v, acc =>
    match take2Digits v with
    | none => none
    | some r => timeParseLoop restL r.2 { acc with day := r.1 }
  | '1' :: '5' :: restL, v, acc =>
    match take1or2Digits v with
    | none => none
    | some r => timeParseLoop restL r.2 { acc with hour := r.1 }
  | '0' :: '4' :: restL, v, acc =>
    match take2Digits v with
    | none => none
    | some r => timeParseLoop restL r.2 { acc with minute := r.1 }
  | '0' :: '5' :: restL, v, acc =>
    match take2Digits v with
    | none => none
    | some r => timeParseLoop restL r.2 { acc with second := r.1 }
  | c :: restL, v, acc =>
    match v with
    | [] => none
    | d :: restV => if d = c then timeParseLoop restL restV acc else none
  | [], v, acc => if v = [] then some acc else none

/-- Days in a month, with Gregorian leap years (Go's `daysIn`). -/
def daysIn (month year : Nat) : Nat :=
  if month = 2 then
    if year % 4 = 0 ∧ (year % 100 ≠ 0 ∨ year % 400 = 0) then 29 else 28
  else if month = 4 ∨ month = 6 ∨ month = 9 ∨ month = 11 then 30
  else 31

/-- Models `time.Parse(layout, value)` for the supported layout tokens:
runs the layout interpreter, then applies Go's range validation (month,
day-in-month, hour, minute, second). -/
def goTimeParse (layout value : GoStr) : Option TimeVal :=
  match timeParseLoop layout value
          { year := 0, month := 1, day := 1, hour := 0, minute := 0, second := 0 } with
  | none => none
  | some t =>
    if 1 ≤ t.month ∧ t.month ≤ 12 ∧ 1 ≤ t.day ∧ t.day ≤ daysIn t.month t.year
        ∧ t.hour ≤ 23 ∧ t.minute ≤ 59 ∧ t.second ≤ 59 then
      some t
    else none

/-- The default time format of the source (`"2006-01-02 15:04:05"`). -/
def defaultTimeFormat : GoStr := gs "2006-01-02 15:04:05"

/-- The type switch of `convertToType`, applied to the effective value
(token value, or default after the empty-string fallback). -/
def convertValue (baseType : GoType) (value format : GoStr) : Except GoError GoValue :=
  match baseType with
  | .bool => .ok (.vBool true)
  | .string => .ok (.vString value)
  | .int =>
    match goAtoi value with
    | some i => .ok (.vInt i)
    | none => .error .conversionError
  | .float64 =>
    if goParseFloatOk value then .ok (.vFloat value) else .error .conversionError
  | .time =>
    let fmt := if format = [] then defaultTimeFormat else format
    match goTimeParse fmt value with
    | some t => .ok (.vTime t)
    | none => .error .conversionError
  | .duration =>
    match goParseDuration value with
    | some d => .ok (.vDuration d)
    | none => .error .conversionError

/-- Embeds `convertToType` of the source: converts the (string) value of a
`fieldInfo` into the appropriate type, substituting the default value when
the value is the empty string. -/
def convertToType (info : FieldInfo) : Except GoError GoValue :=
  convertValue info.baseType
    (if info.value = [] then info.defaultval else info.value) info.format

/-! ## The destination struct and the assignment engine -/

/-- The destination struct, as a mapping from field names to contents. -/
abbrev Struct := GoStr → FieldValue

/-- A `reflect` field write (`field.Set`). -/
def setField (st : Struct) (n : GoStr) (v : FieldValue) : Struct :=
  fun m => if m = n then v else st m

/-- Appending one converted value to a slice field (`reflect.Append`,
preceded by `MakeSlice` when the field still holds its nil zero value). -/
def appendValue : FieldValue → GoValue → FieldValue
  | .slice l, v => .slice (l ++ [v])
  | _, v => .slice [v]

/-- Embeds `populateField` of the source: converts the value carried by the
`fieldInfo` and writes it to the named field, appending for slices. -/
def populateField (info : FieldInfo) (st : Struct) : Except GoError Struct :=
  match convertToType info with
  | .error e => .error e
  | .ok vv =>
    if info.isSlice then
      .ok (setField st info.name (appendValue (st info.name) vv))
    else
      .ok (setField st info.name (.scalar vv))

/-- Embeds `populateOptions` of the source: populates the fields indicated
by the resolved options, in order, stopping at the first failure. -/
def populateOptions : List FieldInfo → Struct → Except GoError Struct
  | [], st => .ok st
  | info :: rest, st =>
    match populateField info st with
    | .error e => .error e
    | .ok st1 => populateOptions rest st1

/-- Embeds `populateDefaults` of the source: collects every non-slice
option entry with a non-empty default value and populates those fields. -/
def populateDefaults (options : Options) (st : Struct) : Except GoError Struct :=
  let defaultOptions :=
    (options.map Prod.snd).filter (fun info => !info.isSlice && !info.defaultval.isEmpty)
  populateOptions defaultOptions st

/-! ## The positional distributor (`populatePositionals`) -/

/-- The slice-position scan of `populatePositionals`:
`pos := 0; for i, p := range positionals if p.isSlice then pos = i`. -/
def findSlicePos : Nat → List FieldInfo → Nat → Nat
  | _, [], pos => pos
  | i, p :: rest, pos => findSlicePos (i + 1) rest (if p.isSlice then i else pos)

/-- The per-field assignment loops of `populatePositionals` for non-slice
runs of positional fields: sets each field's value to its token and
populates it, wrapping failures in the indexed positional error. -/
def assignFields : Nat → List (FieldInfo × GoStr) → Struct → Except GoError Struct
  | _, [], st => .ok st
  | i, (p, t) :: rest, st =>
    match populateField { p with value := t } st with
    | .error _ => .error (.errorPopulatingPositional i)
    | .ok st1 => assignFields (i + 1) rest st1

/-- The middle loop of `populatePositionals`: feeds each middle token to
the collector field, wrapping failures in the slice-of-positionals error. -/
def assignCollector (p : FieldInfo) : List GoStr → Struct → Except GoError Struct
  | [], st => .ok st
  | t :: rest, st =>
    match populateField { p with value := t } st with
    | .error _ => .error .errorPopulatingSlice
    | .ok st1 => assignCollector p rest st1

/-- Embeds `populatePositionals` of the source: distributes the residual
positional tokens over the positional fields, with at most one slice field
absorbing the middle tokens. -/
def populatePositionals (positionals : List FieldInfo) (tokens : List GoStr)
    (st : Struct) : Except GoError Struct :=
  let pos := findSlicePos 0 positionals 0
  let cnt := (positionals.filter (fun p => p.isSlice)).length
  if cnt > 1 then .error .atMostOnePositionalSlice
  else if cnt = 0 then
    if positionals.length ≠ tokens.length then .error .positionalCountMismatch
    else assignFields 0 (positionals.zip tokens) st
  else
    let before := pos
    let after := positionals.length - (pos + 1)
    let between : Int := (tokens.length : Int) - before - after
    if between < 0 then .error .notEnoughPositionalTokens
    else
      match assignFields 0 ((positionals.take before).zip (tokens.take before)) st with
      | .error e => .error e
      | .ok st1 =>
        match assignCollector (positionals.getD pos default)
                ((tokens.drop before).take between.toNat) st1 with
        | .error e => .error e
        | .ok st2 =>
          assignFields (pos + 1)
            ((positionals.drop (pos + 1)).zip (tokens.drop (tokens.length - after))) st2

/-- Embeds `populateFromSlice` of the source, minus the reflection steps
(`unwrap`/`analyzeStruct`, which produce the schema handed in here): in
standard mode pre-populates defaults, then extracts options and positional
tokens and populates the struct from both. -/
def populateFromSlice (options : Options) (positionals : List FieldInfo)
    (tokens : List GoStr) (isFused : Bool) (st : Struct) : Except GoError Struct :=
  match (if !isFused then populateDefaults options st else .ok st) with
  | .error e => .error e
  | .ok st1 =>
    match processTokens options tokens isFused with
    | .error e => .error e
    | .ok r =>
      match populateOptions r.1 st1 with
      | .error e => .error e
      | .ok st2 => populatePositionals positionals r.2 st2

/-! ## Concrete schemas used by witnesses and counterexamples -/

/-- A boolean flag slot named `A`. -/
def infoBoolA : FieldInfo :=
  { name := gs "A", baseType := .bool, isSlice := false, defaultval := [], format := [] }

/-- A boolean flag slot named `B`. -/
def infoBoolB : FieldInfo :=
  { name := gs "B", baseType := .bool, isSlice := false, defaultval := [], format := [] }

/-- An integer flag slot named `Three`, bound to the flag `-3`. -/
def infoThree : FieldInfo :=
  { name := gs "Three", baseType := .int, isSlice := false, defaultval := [], format := [] }

/-- The schema `{-a: Bool, -b: Bool, -3: Int}` of the compound example. -/
def optsAB3 : Options :=
  [(gs "-a", infoBoolA), (gs "-b", infoBoolB), (gs "-3", infoThree)]

/-- The `Scalar<Int>` slot `C` with alias `+C` and default `"7"`. -/
def infoC : FieldInfo :=
  { name := gs "C", baseType := .int, isSlice := false, defaultval := gs "7", format := [] }

/-- The schema `{C: Scalar<Int>, alias "+C", default "7"}`. -/
def optsC : Options := [(gs "+C", infoC)]

/-- Boolean flags registered only under their `+` spellings. -/
def optsPlus : Options := [(gs "+a", infoBoolA), (gs "+b", infoBoolB)]

/-- A destination struct in which every field holds its zero value. -/
def zeroStruct : Struct := fun _ => .zero

/-- A boolean flag slot with a declared (non-empty) default string. -/
def infoBoolDef : FieldInfo :=
  { name := gs "B", baseType := .bool, isSlice := false, defaultval := gs "true",
    format := [] }

/-- The schema with both a defaulted boolean flag and a defaulted integer
flag, used to witness default pre-population. -/
def optsBC : Options := [(gs "-B", infoBoolDef), (gs "+C", infoC)]

/-- The struct that `populateDefaults` produces from `optsBC`. -/
def stBC : Struct :=
  setField (setField zeroStruct (gs "B") (.scalar (.vBool true))) (gs "C")
    (.scalar (.vInt 7))

/-- A string option slot with neither a value nor a default. -/
def infoStrEmpty : FieldInfo :=
  { name := gs "S", baseType := .string, isSlice := false, defaultval := [],
    format := [] }

/-- An integer option slot with neither a value nor a default. -/
def infoIntEmpty : FieldInfo :=
  { name := gs "I", baseType := .int, isSlice := false, defaultval := [],
    format := [] }

/-- An integer positional slot without a default. -/
def infoIntPos : FieldInfo :=
  { name := gs "P", baseType := .int, isSlice := false, defaultval := [], format := [] }

/-- A string positional slot named `P`. -/
def infoStrP : FieldInfo :=
  { name := gs "P", baseType := .string, isSlice := false, defaultval := [], format := [] }

/-- A string positional slot named `Q`. -/
def infoStrQ : FieldInfo :=
  { name := gs "Q", baseType := .string, isSlice := false, defaultval := [], format := [] }

/-- The struct produced by distributing `["u", "v"]` over `[P, Q]`. -/
def stPQ : Struct :=
  setField (setField zeroStruct (gs "P") (.scalar (.vString (gs "u")))) (gs "Q")
    (.scalar (.vString (gs "v")))

/-- A string positional slot named `A` (the slot before the collector). -/
def posA : FieldInfo :=
  { name := gs "A", baseType := .string, isSlice := false, defaultval := [], format := [] }

/-- The string collector slot `R`. -/
def posColl : FieldInfo :=
  { name := gs "R", baseType := .string, isSlice := true, defaultval := [], format := [] }

/-- A string positional slot named `W` (the slot after the collector). -/
def posW : FieldInfo :=
  { name := gs "W", baseType := .string, isSlice := false, defaultval := [], format := [] }

/-- The residual tokens of the collector example. -/
def exTokens : List GoStr := [gs "-1", gs "1", gs "2", gs "3", gs "7"]

/-! ## Step equations for the resolver loop -/

theorem processLoop_nil (o : Options) (f c : Bool) :
    processLoop o f [] [] c = .ok ([], []) := by
  rw [processLoop]
  simp

theorem processLoop_pop (o : Options) (f c : Bool) (t : GoStr) (ts : List GoStr) :
    processLoop o f [] (t :: ts) c = processLoop o f t ts false := by
  rw [processLoop]
  simp

theorem processLoop_unknown_mid (o : Options) (f : Bool) (ts : List GoStr)
    (token : GoStr) (h : token ≠ []) (hl : o.lookup (chopToken token).1 = none) :
    processLoop o f token ts true = .error (.unexpectedCompoundFlag token) := by
  rw [processLoop.eq_def]
  simp [h, hl]

theorem processLoop_unknown (o : Options) (f : Bool) (ts : List GoStr)
    (token : GoStr) (h : token ≠ []) (hl : o.lookup (chopToken token).1 = none) :
    processLoop o f token ts false =
      Except.map (fun r => (r.1, token :: r.2)) (processLoop o f [] ts false) := by
  rw [processLoop.eq_def]
  simp [h, hl]

theorem processLoop_complete (o : Options) (f c : Bool) (ts : List GoStr)
    (token : GoStr) (info : FieldInfo)
    (h : token ≠ []) (hl : o.lookup (chopToken token).1 = some info)
    (hb : (info.baseType = GoType.bool) ↔ ((chopToken token).2 = [])) :
    processLoop o f token ts c =
      Except.map
        (fun r =>
          ({ info with flag := (chopToken token).1, value := (chopToken token).2 } :: r.1,
           r.2))
        (processLoop o f [] ts c) := by
  rw [processLoop.eq_def]
  have hb2 : (info.baseType == GoType.bool) = ((chopToken token).2 == []) := by
    by_cases he : (chopToken token).2 = []
    · simp [he, hb.mpr he]
    · have hbt : info.baseType ≠ GoType.bool := fun hh => he (hb.mp hh)
      rw [beq_eq_false_iff_ne.mpr hbt, beq_eq_false_iff_ne.mpr he]
  simp [h, hl, hb2]

theorem processLoop_compound (o : Options) (f c : Bool) (ts : List GoStr)
    (token : GoStr) (info : FieldInfo)
    (h : token ≠ []) (hl : o.lookup (chopToken token).1 = some info)
    (hb : info.baseType = GoType.bool) (hr : (chopToken token).2 ≠ []) :
    processLoop o f token ts c =
      Except.map
        (fun r => ({ info with flag := (chopToken token).1, value := [] } :: r.1, r.2))
        (processLoop o f ('-' :: (chopToken token).2) ts true) := by
  rw [processLoop.eq_def]
  simp [h, hl, hb, hr]

theorem processLoop_incomplete_fused (o : Options) (c : Bool) (ts : List GoStr)
    (token : GoStr) (info : FieldInfo)
    (h : token ≠ []) (hl : o.lookup (chopToken token).1 = some info)
    (hb : info.baseType ≠ GoType.bool) (hr : (chopToken token).2 = []) :
    processLoop o true token ts c =
      Except.map
        (fun r =>
          ({ info with flag := (chopToken token).1, value := info.defaultval } :: r.1,
           r.2))
        (processLoop o true [] ts c) := by
  rw [processLoop.eq_def]
  simp [h, hl, hb, hr]

theorem processLoop_incomplete_next (o : Options) (c : Bool) (t : GoStr)
    (ts : List GoStr) (token : GoStr) (info : FieldInfo)
    (h : token ≠ []) (hl : o.lookup (chopToken token).1 = some info)
    (hb : info.baseType ≠ GoType.bool) (hr : (chopToken token).2 = []) :
    processLoop o false token (t :: ts) c =
      Except.map
        (fun r => ({ info with flag := (chopToken token).1, value := t } :: r.1, r.2))
        (processLoop o false [] ts c) := by
  rw [processLoop.eq_def]
  simp [h, hl, hb, hr]

theorem processLoop_incomplete_exhausted (o : Options) (c : Bool)
    (token : GoStr) (info : FieldInfo)
    (h : token ≠ []) (hl : o.lookup (chopToken token).1 = some info)
    (hb : info.baseType ≠ GoType.bool) (hr : (chopToken token).2 = []) :
    processLoop o false token [] c =
      .error (.notEnoughTokens (chopToken token).1) := by
  rw [processLoop.eq_def]
  simp [h, hl, hb, hr]

/-- With an empty pending register, the compound marker is irrelevant: the
next iteration pops the queue and resets it. -/
theorem processLoop_nil_token_indep (o : Options) (f : Bool) (ts : List GoStr)
    (c₁ c₂ : Bool) :
    processLoop o f [] ts c₁ = processLoop o f [] ts c₂ := by
  cases ts with
  | nil => rw [processLoop_nil, processLoop_nil]
  | cons t ts => rw [processLoop_pop, processLoop_pop]

/-- The compound marker only matters at a failed lookup: when the pending
token's key resolves, both marker values give the same result. -/
theorem processLoop_compound_indep (o : Options) (f : Bool) (ts : List GoStr)
    (token : GoStr) (c₁ c₂ : Bool)
    (h : token ≠ []) (hl : (o.lookup (chopToken token).1).isSome = true) :
    processLoop o f token ts c₁ = processLoop o f token ts c₂ := by
  obtain ⟨info, hinfo⟩ := Option.isSome_iff_exists.mp hl
  by_cases hb : (info.baseType = GoType.bool) ↔ ((chopToken token).2 = [])
  · rw [processLoop_complete o f c₁ ts token info h hinfo hb,
        processLoop_complete o f c₂ ts token info h hinfo hb,
        processLoop_nil_token_indep o f ts c₁ c₂]
  · by_cases hbo : info.baseType = GoType.bool
    · have hr : (chopToken token).2 ≠ [] := by
        intro hnil
        exact hb (iff_of_true hbo hnil)
      rw [processLoop_compound o f c₁ ts token info h hinfo hbo hr,
          processLoop_compound o f c₂ ts token info h hinfo hbo hr]
    · have hr : (chopToken token).2 = [] := by
        by_contra hne
        exact hb (iff_of_false hbo hne)
      cases f with
      | true =>
        rw [processLoop_incomplete_fused o c₁ ts token info h hinfo hbo hr,
            processLoop_incomplete_fused o c₂ ts token info h hinfo hbo hr,
            processLoop_nil_token_indep o true ts c₁ c₂]
      | false =>
        cases ts with
        | nil =>
          rw [processLoop_incomplete_exhausted o c₁ token info h hinfo hbo hr,
              processLoop_incomplete_exhausted o c₂ token info h hinfo hbo hr]
        | cons t ts =>
          rw [processLoop_incomplete_next o c₁ t ts token info h hinfo hbo hr,
              processLoop_incomplete_next o c₂ t ts token info h hinfo hbo hr,
              processLoop_nil_token_indep o false ts c₁ c₂]

/-- A single-prefix token of at least two characters is chopped after its
first two characters (helper covering the `-x...`/`+x...` shapes). -/
theorem chopToken_short (p c : Char) (l : GoStr)
    (hp : p = '-' ∨ p = '+') (hc : p = '-' → c ≠ '-') :
    chopToken (p :: c :: l) = ([p, c], l) := by
  have h1 : ¬(p :: c :: l = ['-', '-'] ∨ p :: c :: l = ['-'] ∨ p :: c :: l = ['+']) := by
    intro h
    rcases h with h | h | h
    · simp at h
      exact (hc h.1) (h.2.1)
    · simp at h
    · simp at h
  have h2 : ¬goStartsWith (p :: c :: l) ['-', '-'] = true := by
    rcases hp with hp | hp
    · subst hp
      simp [goStartsWith]
      intro hcd
      exact absurd hcd (hc rfl)
    · subst hp
      simp [goStartsWith]
  have h3 : (goStartsWith (p :: c :: l) ['-'] || goStartsWith (p :: c :: l) ['+']) = true := by
    rcases hp with hp | hp <;> subst hp <;> simp [goStartsWith]
  rw [chopToken_single (p :: c :: l) h1 h2 h3]
  simp

/-- C1: `chopToken` is a pure classifier: a lone prefix marker is returned
unchanged with empty remainder; a `--`-prefixed token splits on its first
`=` into key and remainder (whole token and empty remainder when no `=` is
present); any other `-`/`+`-prefixed token splits after exactly two
characters; every other token is returned whole with empty remainder. -/
theorem chopToken_rules (s : GoStr) :
    ((s = ['-', '-'] ∨ s = ['-'] ∨ s = ['+']) → chopToken s = (s, [])) ∧
    (¬(s = ['-', '-'] ∨ s = ['-'] ∨ s = ['+']) → goStartsWith s ['-', '-'] = true →
      (('=' ∈ s → ∃ k r, chopToken s = (k, r) ∧ s = k ++ '=' :: r ∧ '=' ∉ k) ∧
       ('=' ∉ s → chopToken s = (s, [])))) ∧
    (¬(s = ['-', '-'] ∨ s = ['-'] ∨ s = ['+']) → ¬goStartsWith s ['-', '-'] = true →
      (goStartsWith s ['-'] = true ∨ goStartsWith s ['+'] = true) →
      ∃ a b rest, s = a :: b :: rest ∧ chopToken s = ([a, b], rest)) ∧
    (¬(goStartsWith s ['-'] = true ∨ goStartsWith s ['+'] = true) → chopToken s = (s, [])) := by
  refine ⟨fun h => chopToken_bare s h, fun h1 h2 => ⟨?_, ?_⟩, fun h1 h2 h3 => ?_, fun h => ?_⟩
  · intro hmem
    have hf : (goCut '=' s).2.2 = true := (goCut_found_iff_mem '=' s).mpr hmem
    obtain ⟨happ, hnot⟩ := goCut_append_of_found '=' s hf
    exact ⟨(goCut '=' s).1, (goCut '=' s).2.1, chopToken_dd s h1 h2, happ, hnot⟩
  · intro hmem
    have hf : (goCut '=' s).2.2 = false := by
      rcases hb : (goCut '=' s).2.2 with h | h
      · rfl
      · exact absurd ((goCut_found_iff_mem '=' s).mp hb) hmem
    rw [chopToken_dd s h1 h2, goCut_fst_of_not_found '=' s hf,
        goCut_rest_of_not_found '=' s hf]
  · have hone : ∃ a t, s = a :: t ∧ (a = '-' ∨ a = '+') := by
      rcases h3 with h3 | h3
      · obtain ⟨t, ht⟩ := goStartsWith_one s '-' h3
        exact ⟨'-', t, ht, Or.inl rfl⟩
      · obtain ⟨t, ht⟩ := goStartsWith_one s '+' h3
        exact ⟨'+', t, ht, Or.inr rfl⟩
    obtain ⟨a, t, hst, ha⟩ := hone
    cases t with
    | nil =>
      exfalso
      subst hst
      rcases ha with ha | ha <;> subst ha <;> simp at h1
    | cons b rest =>
      subst hst
      refine ⟨a, b, rest, rfl, ?_⟩
      rw [chopToken_single _ h1 h2 (by rcases h3 with h3 | h3 <;> simp [h3])]
      simp [List.take_succ_cons, List.drop_succ_cons]
  · have h1 : ¬(s = ['-', '-'] ∨ s = ['-'] ∨ s = ['+']) := by
      intro hb
      rcases hb with hb | hb | hb <;> subst hb <;> simp [goStartsWith] at h
    have h2 : ¬goStartsWith s ['-', '-'] = true := by
      intro hdd
      obtain ⟨t, ht⟩ := goStartsWith_two s '-' '-' hdd
      subst ht
      simp [goStartsWith] at h
    exact chopToken_other s h1 h2 (by simpa using h)

theorem chopToken_rules_witness :
    chopToken ['-'] = (['-'], []) ∧
    (∃ k r, chopToken (gs "--n=v") = (k, r) ∧ gs "--n=v" = k ++ '=' :: r ∧ '=' ∉ k) ∧
    chopToken (gs "--name") = (gs "--name", []) ∧
    (∃ a b rest, gs "-x3" = a :: b :: rest ∧ chopToken (gs "-x3") = ([a, b], rest)) ∧
    chopToken (gs "foo") = (gs "foo", []) :=
  ⟨(chopToken_rules ['-']).1 (by decide),
   ((chopToken_rules (gs "--n=v")).2.1 (by decide) (by decide)).1 (by decide),
   ((chopToken_rules (gs "--name")).2.1 (by decide) (by decide)).2 (by decide),
   (chopToken_rules (gs "-x3")).2.2.1 (by decide) (by decide) (by decide),
   (chopToken_rules (gs "foo")).2.2.2 (by decide)⟩

/-! ## The end-of-options splitter (C4) -/

theorem findIdx_marker_append (T R : List GoStr) (h : endFlagsIndicator ∉ T) :
    (T ++ endFlagsIndicator :: R).findIdx (fun t => t == endFlagsIndicator) = T.length := by
  induction T with
  | nil => simp [List.findIdx_cons]
  | cons t T ih =>
    have ht : (t == endFlagsIndicator) = false :=
      beq_eq_false_iff_ne.mpr (fun he => h (he ▸ List.mem_cons_self t T))
    simp only [List.cons_append, List.findIdx_cons, ht, cond_false]
    rw [ih (fun hm => h (List.mem_cons_of_mem t hm))]
    simp

theorem findIdx_marker_absent (tokens : List GoStr) (h : endFlagsIndicator ∉ tokens) :
    tokens.findIdx (fun t => t == endFlagsIndicator) = tokens.length := by
  induction tokens with
  | nil => simp
  | cons t T ih =>
    have ht : (t == endFlagsIndicator) = false :=
      beq_eq_false_iff_ne.mpr (fun he => h (he ▸ List.mem_cons_self t T))
    simp only [List.findIdx_cons, ht, cond_false, List.length_cons]
    rw [ih (fun hm => h (List.mem_cons_of_mem t hm))]

theorem processTokens_with_marker (o : Options) (f : Bool) (T R : List GoStr)
    (h : endFlagsIndicator ∉ T) :
    processTokens o (T ++ endFlagsIndicator :: R) f =
      Except.map (fun r => (r.1, r.2 ++ R)) (processMaybeFlags T o f) := by
  unfold processTokens processTokens3
  rw [findIdx_marker_append T R h]
  have htake : (T ++ endFlagsIndicator :: R).take T.length = T := by
    rw [List.take_left]
  have hdrop : (T ++ endFlagsIndicator :: R).drop (T.length + 1) = R := by
    have : T ++ endFlagsIndicator :: R = (T ++ [endFlagsIndicator]) ++ R := by simp
    rw [this, show T.length + 1 = (T ++ [endFlagsIndicator]).length by simp,
        List.drop_left]
  simp only [htake, hdrop]
  cases processMaybeFlags T o f with
  | error e => rfl
  | ok r => rfl

theorem processTokens_no_marker (o : Options) (f : Bool) (tokens : List GoStr)
    (h : endFlagsIndicator ∉ tokens) :
    processTokens o tokens f = processMaybeFlags tokens o f := by
  unfold processTokens processTokens3
  rw [findIdx_marker_absent tokens h]
  have hdrop : tokens.drop (tokens.length + 1) = [] := List.drop_eq_nil_of_le (by omega)
  simp only [List.take_length, hdrop]
  cases processMaybeFlags tokens o f with
  | error e => rfl
  | ok r => simp

/-- C4: `processTokens` splits at the first `"--"`: tokens strictly before
it go to the resolver, tokens strictly after it (however they look) are
appended verbatim to the positional result, the marker itself is never
emitted, and without a marker the whole list goes to the resolver with
nothing appended. -/
theorem processTokens_split_on_marker (o : Options) (f : Bool) :
    (∀ T R, endFlagsIndicator ∉ T →
      processTokens o (T ++ endFlagsIndicator :: R) f =
        Except.map (fun r => (r.1, r.2 ++ R)) (processMaybeFlags T o f)) ∧
    (∀ tokens, endFlagsIndicator ∉ tokens →
      processTokens o tokens f = processMaybeFlags tokens o f) :=
  ⟨fun T R h => processTokens_with_marker o f T R h,
   fun tokens h => processTokens_no_marker o f tokens h⟩

theorem processTokens_split_on_marker_witness :
    (processTokens [] ([gs "a"] ++ endFlagsIndicator :: [gs "-b", gs "--"]) false =
      Except.map (fun r => (r.1, r.2 ++ [gs "-b", gs "--"]))
        (processMaybeFlags [gs "a"] [] false)) ∧
    (processTokens [] [gs "a", gs "b"] false = processMaybeFlags [gs "a", gs "b"] [] false) :=
  ⟨(processTokens_split_on_marker [] false).1 [gs "a"] [gs "-b", gs "--"] (by decide),
   (processTokens_split_on_marker [] false).2 [gs "a", gs "b"] (by decide)⟩

/-! ## The compound-expansion equivalence (C2) -/

/-- C2: a compound short-flag token whose first flag is a registered
boolean resolves exactly as the two tokens obtained by splitting the chain
after the first flag, provided the next character group's key is also
registered (as the claim's hypothesis of a chain of registered flags
guarantees): the first peel emits the same assignment on both routes, and
the compound marker they disagree on is irrelevant at a resolving key. -/
theorem processMaybeFlags_compound_split (o : Options) (f : Bool) (p c₁ c₂ : Char)
    (rest : GoStr) (i₁ : FieldInfo)
    (hp : p = '-' ∨ p = '+') (hc₁ : p = '-' → c₁ ≠ '-') (hc₂ : c₂ ≠ '-')
    (h₁ : o.lookup [p, c₁] = some i₁) (hb₁ : i₁.baseType = GoType.bool)
    (h₂ : (o.lookup ['-', c₂]).isSome = true) :
    processMaybeFlags [p :: c₁ :: c₂ :: rest] o f =
      processMaybeFlags [[p, c₁], '-' :: c₂ :: rest] o f := by
  have hch1 : chopToken (p :: c₁ :: c₂ :: rest) = ([p, c₁], c₂ :: rest) :=
    chopToken_short p c₁ (c₂ :: rest) hp hc₁
  have hch2 : chopToken [p, c₁] = ([p, c₁], []) :=
    chopToken_short p c₁ [] hp hc₁
  have hch3 : chopToken ('-' :: c₂ :: rest) = (['-', c₂], rest) :=
    chopToken_short '-' c₂ rest (Or.inl rfl) (fun _ => hc₂)
  unfold processMaybeFlags
  rw [processLoop_pop, processLoop_pop,
      processLoop_compound o f false [] (p :: c₁ :: c₂ :: rest) i₁ (by simp)
        (by rw [hch1]; exact h₁) hb₁ (by rw [hch1]; simp),
      processLoop_complete o f false ['-' :: c₂ :: rest] [p, c₁] i₁ (by simp)
        (by rw [hch2]; exact h₁) (by rw [hch2]; simp [hb₁]),
      processLoop_pop]
  simp only [hch1, hch2]
  rw [processLoop_compound_indep o f [] ('-' :: c₂ :: rest) true false (by simp)
        (by rw [hch3]; exact h₂)]

theorem processMaybeFlags_compound_split_witness :
    processMaybeFlags [gs "-ab3"] optsAB3 false =
      processMaybeFlags [gs "-a", gs "-b3"] optsAB3 false :=
  processMaybeFlags_compound_split optsAB3 false '-' 'a' 'b' ['3'] infoBoolA
    (Or.inl rfl) (by decide) (by decide) (by decide) (by decide) (by decide)

/-! ## Compound re-synthesis always uses the '-' prefix (C10) -/

/-- C10: peeling a boolean flag from a compound token always re-synthesizes
the pending token as `'-'` plus the remainder, regardless of the original
token's prefix; consequently a compound chain begun with a `+`-prefixed
boolean flag looks up the next character group under its `-` spelling and
fails with the unknown-compound-flag error when that spelling is not
registered. -/
theorem compound_resynthesis_uses_dash (o : Options) (f : Bool) :
    (∀ (token : GoStr) (ts : List GoStr) (c : Bool) (info : FieldInfo),
      token ≠ [] → o.lookup (chopToken token).1 = some info →
      info.baseType = GoType.bool → (chopToken token).2 ≠ [] →
      processLoop o f token ts c =
        Except.map
          (fun r => ({ info with flag := (chopToken token).1, value := [] } :: r.1, r.2))
          (processLoop o f ('-' :: (chopToken token).2) ts true)) ∧
    (∀ (a b : Char) (i : FieldInfo),
      o.lookup ['+', a] = some i → i.baseType = GoType.bool → b ≠ '-' →
      o.lookup ['-', b] = none →
      processMaybeFlags [['+', a, b]] o f =
        .error (.unexpectedCompoundFlag ['-', b])) := by
  constructor
  · exact fun token ts c info h hl hb hr => processLoop_compound o f c ts token info h hl hb hr
  · intro a b i hi hb hnb hdash
    have hch1 : chopToken ['+', a, b] = (['+', a], [b]) :=
      chopToken_short '+' a [b] (Or.inr rfl) (fun h => absurd h (by decide))
    have hch2 : chopToken ['-', b] = (['-', b], []) :=
      chopToken_short '-' b [] (Or.inl rfl) (fun _ => hnb)
    unfold processMaybeFlags
    rw [processLoop_pop,
        processLoop_compound o f false [] ['+', a, b] i (by simp)
          (by rw [hch1]; exact hi) hb (by rw [hch1]; simp)]
    simp only [hch1]
    rw [processLoop_unknown_mid o f [] ('-' :: [b]) (by simp) (by rw [hch2]; exact hdash)]
    rfl

theorem compound_resynthesis_uses_dash_witness :
    (processLoop optsPlus false (gs "+ab") [] false =
      Except.map
        (fun r => ({ infoBoolA with flag := (chopToken (gs "+ab")).1, value := [] } :: r.1,
                   r.2))
        (processLoop optsPlus false ('-' :: (chopToken (gs "+ab")).2) [] true)) ∧
    (processMaybeFlags [gs "+ab"] optsPlus false =
      .error (.unexpectedCompoundFlag (gs "-b"))) :=
  ⟨(compound_resynthesis_uses_dash optsPlus false).1 (gs "+ab") [] false infoBoolA
      (by decide) (by decide) (by decide) (by decide),
   (compound_resynthesis_uses_dash optsPlus false).2 'a' 'b' infoBoolA
      (by decide) (by decide) (by decide) (by decide)⟩

/-! ## Unknown keys: positional outside a chain, error inside one (C7) -/

/-- C7 counterexample: for the unknown flag-shaped token `-x3` the resolver
emits the whole token `-x3` as a positional, not the classified key `-x`
that the claim announces. -/
theorem unknown_token_emits_token_not_key :
    processMaybeFlags [gs "-x3"] [] false = .ok ([], [gs "-x3"]) ∧
    chopToken (gs "-x3") = (gs "-x", gs "3") ∧ gs "-x3" ≠ gs "-x" := by
  refine ⟨?_, by decide, by decide⟩
  unfold processMaybeFlags
  rw [processLoop_pop,
      processLoop_unknown [] false [] (gs "-x3") (by decide) (by decide),
      processLoop_nil]
  rfl

/-- C7 (amended): when the classified key of the pending token is not in
the option map, the resolver outside a compound chain emits the whole
pending token unchanged as a positional and continues without error;
inside a compound chain it fails with the unknown-compound-flag error. -/
theorem unknown_key_resolution (o : Options) (f : Bool) (token : GoStr)
    (ts : List GoStr) (h : token ≠ []) (hl : o.lookup (chopToken token).1 = none) :
    (processLoop o f token ts false =
      Except.map (fun r => (r.1, token :: r.2)) (processLoop o f [] ts false)) ∧
    (processLoop o f token ts true = .error (.unexpectedCompoundFlag token)) :=
  ⟨processLoop_unknown o f ts token h hl, processLoop_unknown_mid o f ts token h hl⟩

theorem unknown_key_resolution_witness :
    (processLoop [] false (gs "--flag=z") [gs "p"] false =
      Except.map (fun r => (r.1, gs "--flag=z" :: r.2))
        (processLoop [] false [] [gs "p"] false)) ∧
    (processLoop [] false (gs "--flag=z") [gs "p"] true =
      .error (.unexpectedCompoundFlag (gs "--flag=z"))) :=
  unknown_key_resolution [] false (gs "--flag=z") [gs "p"] (by decide) (by decide)

/-! ## Fused vs standard mode (C3) -/

theorem processMaybeFlags_plusC_standard :
    processMaybeFlags [gs "+C"] optsC false = .error (.notEnoughTokens (gs "+C")) := by
  have hch : chopToken (gs "+C") = (gs "+C", []) :=
    chopToken_short '+' 'C' [] (Or.inr rfl) (fun h => absurd h (by decide))
  unfold processMaybeFlags
  rw [processLoop_pop,
      processLoop_incomplete_exhausted optsC false (gs "+C") infoC (by decide)
        (by rw [hch]; decide) (by decide) (by rw [hch]),
      hch]

theorem processMaybeFlags_plusC_fused :
    processMaybeFlags [gs "+C"] optsC true =
      .ok ([{ infoC with flag := gs "+C", value := gs "7" }], []) := by
  have hch : chopToken (gs "+C") = (gs "+C", []) :=
    chopToken_short '+' 'C' [] (Or.inr rfl) (fun h => absurd h (by decide))
  unfold processMaybeFlags
  rw [processLoop_pop,
      processLoop_incomplete_fused optsC false [] (gs "+C") infoC (by decide)
        (by rw [hch]; decide) (by decide) (by rw [hch]),
      processLoop_nil]
  rfl

/-- C3: a recognized non-boolean flag with empty remainder takes the slot's
default string as its raw value in fused mode, while in non-fused mode it
consumes the next queue token, failing with the insufficient-tokens error
when the queue is empty; in particular, against `{C: Scalar<Int>, alias
"+C", default "7"}` the input `["+C"]` fails in standard mode and succeeds
with `C = 7` in fused mode. -/
theorem fused_vs_standard_divergence :
    (∀ (o : Options) (c : Bool) (ts : List GoStr) (token : GoStr) (info : FieldInfo),
      token ≠ [] → o.lookup (chopToken token).1 = some info →
      info.baseType ≠ GoType.bool → (chopToken token).2 = [] →
      (processLoop o true token ts c =
        Except.map
          (fun r =>
            ({ info with flag := (chopToken token).1, value := info.defaultval } :: r.1,
             r.2))
          (processLoop o true [] ts c)) ∧
      (∀ t ts2, processLoop o false token (t :: ts2) c =
        Except.map
          (fun r => ({ info with flag := (chopToken token).1, value := t } :: r.1, r.2))
          (processLoop o false [] ts2 c)) ∧
      (processLoop o false token [] c = .error (.notEnoughTokens (chopToken token).1))) ∧
    populateFromSlice optsC [] [gs "+C"] false zeroStruct =
      .error (.notEnoughTokens (gs "+C")) ∧
    (populateFromSlice optsC [] [gs "+C"] true zeroStruct).map (fun st => st (gs "C")) =
      .ok (.scalar (.vInt 7)) := by
  refine ⟨fun o c ts token info h hl hb hr =>
    ⟨processLoop_incomplete_fused o c ts token info h hl hb hr,
     fun t ts2 => processLoop_incomplete_next o c t ts2 token info h hl hb hr,
     processLoop_incomplete_exhausted o c token info h hl hb hr⟩, ?_, ?_⟩
  · have hpt : processTokens optsC [gs "+C"] false =
        .error (.notEnoughTokens (gs "+C")) := by
      rw [processTokens_no_marker optsC false [gs "+C"] (by decide)]
      exact processMaybeFlags_plusC_standard
    show (match processTokens optsC [gs "+C"] false with
          | .error e => Except.error e
          | .ok r =>
            match populateOptions r.1 (setField zeroStruct (gs "C") (.scalar (.vInt 7))) with
            | .error e => .error e
            | .ok st2 => populatePositionals [] r.2 st2)
        = .error (.notEnoughTokens (gs "+C"))
    rw [hpt]
  · have hpt : processTokens optsC [gs "+C"] true =
        .ok ([{ infoC with flag := gs "+C", value := gs "7" }], []) := by
      rw [processTokens_no_marker optsC true [gs "+C"] (by decide)]
      exact processMaybeFlags_plusC_fused
    show Except.map (fun st => st (gs "C"))
      (match processTokens optsC [gs "+C"] true with
       | .error e => Except.error e
       | .ok r =>
         match populateOptions r.1 zeroStruct with
         | .error e => .error e
         | .ok st2 => populatePositionals [] r.2 st2)
      = .ok (.scalar (.vInt 7))
    rw [hpt]
    rfl

theorem fused_vs_standard_divergence_witness :
    (processLoop optsC true (gs "+C") [] false =
      Except.map
        (fun r =>
          ({ infoC with flag := (chopToken (gs "+C")).1, value := infoC.defaultval } :: r.1,
           r.2))
        (processLoop optsC true [] [] false)) ∧
    (processLoop optsC false (gs "+C") [] false =
      .error (.notEnoughTokens (chopToken (gs "+C")).1)) ∧
    populateFromSlice optsC [] [gs "+C"] false zeroStruct =
      .error (.notEnoughTokens (gs "+C")) ∧
    (populateFromSlice optsC [] [gs "+C"] true zeroStruct).map (fun st => st (gs "C")) =
      .ok (.scalar (.vInt 7)) :=
  ⟨(fused_vs_standard_divergence.1 optsC false [] (gs "+C") infoC
      (by decide) (by decide) (by decide) (by decide)).1,
   (fused_vs_standard_divergence.1 optsC false [] (gs "+C") infoC
      (by decide) (by decide) (by decide) (by decide)).2.2,
   fused_vs_standard_divergence.2.1,
   fused_vs_standard_divergence.2.2⟩

/-! ## Generic lemmas about the assignment engine -/

theorem populateField_untouched (info : FieldInfo) (st st' : Struct) (n : GoStr)
    (h : populateField info st = .ok st') (hn : info.name ≠ n) : st' n = st n := by
  have hne : n ≠ info.name := fun he => hn he.symm
  unfold populateField at h
  split at h
  · exact absurd h (by simp)
  · split at h
    · rw [← Except.ok.inj h]
      simp [setField, hne]
    · rw [← Except.ok.inj h]
      simp [setField, hne]

theorem populateField_scalar_write (info : FieldInfo) (st st' : Struct)
    (h : populateField info st = .ok st') (hns : info.isSlice = false) :
    ∃ v, convertToType info = .ok v ∧ st' info.name = .scalar v := by
  unfold populateField at h
  split at h
  · exact absurd h (by simp)
  · rename_i v hcv
    rw [if_neg (by simp [hns])] at h
    refine ⟨v, hcv, ?_⟩
    rw [← Except.ok.inj h]
    simp [setField]

theorem populateField_slice_write (info : FieldInfo) (st st' : Struct)
    (h : populateField info st = .ok st') (hsl : info.isSlice = true) :
    ∃ v, convertToType info = .ok v ∧
      st' info.name = appendValue (st info.name) v := by
  unfold populateField at h
  split at h
  · exact absurd h (by simp)
  · rename_i v hcv
    rw [if_pos (by simp [hsl])] at h
    refine ⟨v, hcv, ?_⟩
    rw [← Except.ok.inj h]
    simp [setField]

theorem populateOptions_untouched (infos : List FieldInfo) (st st' : Struct) (n : GoStr)
    (h : populateOptions infos st = .ok st') (hn : ∀ i ∈ infos, i.name ≠ n) :
    st' n = st n := by
  induction infos generalizing st with
  | nil =>
    simp only [populateOptions] at h
    cases h
    rfl
  | cons i rest ih =>
    unfold populateOptions at h
    cases hpf : populateField i st with
    | error e => rw [hpf] at h; exact absurd h (by simp)
    | ok st1 =>
      rw [hpf] at h
      rw [ih st1 h (fun j hj => hn j (List.mem_cons_of_mem i hj))]
      exact populateField_untouched i st st1 n hpf (hn i (List.mem_cons_self i rest))

theorem populateOptions_write (infos : List FieldInfo) (info : FieldInfo)
    (st st' : Struct)
    (h : populateOptions infos st = .ok st') (hmem : info ∈ infos)
    (hns : info.isSlice = false)
    (huniq : ∀ j ∈ infos, j.name = info.name → j = info) :
    ∃ v, convertToType info = .ok v ∧ st' info.name = .scalar v := by
  induction infos generalizing st with
  | nil => exact absurd hmem (by simp)
  | cons i rest ih =>
    unfold populateOptions at h
    cases hpf : populateField i st with
    | error e => rw [hpf] at h; exact absurd h (by simp)
    | ok st1 =>
      rw [hpf] at h
      by_cases hname : i.name = info.name
      · have hieq : i = info := huniq i (List.mem_cons_self i rest) hname
        subst hieq
        obtain ⟨v, hcv, hw⟩ := populateField_scalar_write i st st1 hpf hns
        by_cases hrest : ∃ j ∈ rest, j.name = i.name
        · obtain ⟨j, hjm, hjn⟩ := hrest
          have hje : j = i := huniq j (List.mem_cons_of_mem i hjm) hjn
          exact ih st1 h (hje ▸ hjm)
            (fun j2 hj2 hn2 => huniq j2 (List.mem_cons_of_mem i hj2) hn2)
        · push_neg at hrest
          refine ⟨v, hcv, ?_⟩
          rw [populateOptions_untouched rest st1 st' i.name h hrest]
          exact hw
      · have hmem2 : info ∈ rest := by
          rcases List.mem_cons.mp hmem with he | hm
          · exact absurd (show i.name = info.name by rw [he]) hname
          · exact hm
        exact ih st1 h hmem2
          (fun j2 hj2 hn2 => huniq j2 (List.mem_cons_of_mem i hj2) hn2)

theorem assignFields_untouched (ps : List (FieldInfo × GoStr)) (k : Nat)
    (st st' : Struct) (n : GoStr)
    (h : assignFields k ps st = .ok st') (hn : ∀ q ∈ ps, q.1.name ≠ n) :
    st' n = st n := by
  induction ps generalizing k st with
  | nil =>
    simp only [assignFields] at h
    cases h
    rfl
  | cons q rest ih =>
    obtain ⟨p, t⟩ := q
    unfold assignFields at h
    cases hpf : populateField { p with value := t } st with
    | error e => rw [hpf] at h; exact absurd h (by simp)
    | ok st1 =>
      rw [hpf] at h
      rw [ih (k + 1) st1 h (fun j hj => hn j (List.mem_cons_of_mem _ hj))]
      exact populateField_untouched _ st st1 n hpf
        (hn (p, t) (List.mem_cons_self _ rest))

theorem assignFields_error_shape (ps : List (FieldInfo × GoStr)) (k : Nat)
    (st : Struct) (e : GoError) (h : assignFields k ps st = .error e) :
    ∃ i, e = .errorPopulatingPositional i := by
  induction ps generalizing k st with
  | nil => simp [assignFields] at h
  | cons q rest ih =>
    obtain ⟨p, t⟩ := q
    unfold assignFields at h
    cases hpf : populateField { p with value := t } st with
    | error e2 =>
      rw [hpf] at h
      exact ⟨k, (Except.error.inj h).symm⟩
    | ok st1 =>
      rw [hpf] at h
      exact ih (k + 1) st1 h

theorem assignFields_write (xs ys : List (FieldInfo × GoStr)) (p : FieldInfo)
    (t : GoStr) (k : Nat) (st st' : Struct)
    (h : assignFields k (xs ++ (p, t) :: ys) st = .ok st')
    (hns : p.isSlice = false) (hlast : ∀ q ∈ ys, q.1.name ≠ p.name) :
    ∃ v, convertToType { p with value := t } = .ok v ∧ st' p.name = .scalar v := by
  induction xs generalizing k st with
  | nil =>
    rw [List.nil_append] at h
    unfold assignFields at h
    cases hpf : populateField { p with value := t } st with
    | error e => rw [hpf] at h; exact absurd h (by simp)
    | ok st1 =>
      rw [hpf] at h
      obtain ⟨v, hcv, hw⟩ := populateField_scalar_write _ st st1 hpf (by simpa using hns)
      refine ⟨v, hcv, ?_⟩
      rw [assignFields_untouched ys (k + 1) st1 st' p.name h hlast]
      exact hw
  | cons q rest ih =>
    obtain ⟨p2, t2⟩ := q
    rw [List.cons_append] at h
    unfold assignFields at h
    cases hpf : populateField { p2 with value := t2 } st with
    | error e => rw [hpf] at h; exact absurd h (by simp)
    | ok st1 =>
      rw [hpf] at h
      exact ih (k + 1) st1 h

theorem assignCollector_untouched (p : FieldInfo) (toks : List GoStr)
    (st st' : Struct) (n : GoStr)
    (h : assignCollector p toks st = .ok st') (hn : p.name ≠ n) : st' n = st n := by
  induction toks generalizing st with
  | nil =>
    simp only [assignCollector] at h
    cases h
    rfl
  | cons t rest ih =>
    unfold assignCollector at h
    cases hpf : populateField { p with value := t } st with
    | error e => rw [hpf] at h; exact absurd h (by simp)
    | ok st1 =>
      rw [hpf] at h
      rw [ih st1 h]
      exact populateField_untouched _ st st1 n hpf hn

theorem assignCollector_error_shape (p : FieldInfo) (toks : List GoStr)
    (st : Struct) (e : GoError) (h : assignCollector p toks st = .error e) :
    e = .errorPopulatingSlice := by
  induction toks generalizing st with
  | nil => simp [assignCollector] at h
  | cons t rest ih =>
    unfold assignCollector at h
    cases hpf : populateField { p with value := t } st with
    | error e2 =>
      rw [hpf] at h
      exact (Except.error.inj h).symm
    | ok st1 =>
      rw [hpf] at h
      exact ih st1 h

theorem assignCollector_writes (p : FieldInfo) (toks : List GoStr)
    (st st' : Struct) (hsl : p.isSlice = true)
    (h : assignCollector p toks st = .ok st') :
    ∃ vs : List GoValue, vs.length = toks.length ∧
      (∀ j (hj : j < toks.length) (hv : j < vs.length),
        convertToType { p with value := toks.get ⟨j, hj⟩ } = .ok (vs.get ⟨j, hv⟩)) ∧
      st' p.name = List.foldl appendValue (st p.name) vs := by
  induction toks generalizing st with
  | nil =>
    refine ⟨[], rfl, by simp, ?_⟩
    simp only [assignCollector] at h
    cases h
    rfl
  | cons t rest ih =>
    unfold assignCollector at h
    cases hpf : populateField { p with value := t } st with
    | error e => rw [hpf] at h; exact absurd h (by simp)
    | ok st1 =>
      rw [hpf] at h
      obtain ⟨v, hcv, hw⟩ := populateField_slice_write _ st st1 hpf (by simpa using hsl)
      obtain ⟨vs, hlen, hconv, hfold⟩ := ih st1 h
      refine ⟨v :: vs, by simp [hlen], ?_, ?_⟩
      · intro j hj hv
        cases j with
        | zero => simpa using hcv
        | succ j2 =>
          have := hconv j2 (by simpa using hj) (by simpa using hv)
          simpa using this
      · rw [hfold, hw]
        rfl

/-! ## Default pre-population (C8) -/

/-- C8 counterexample: a boolean option slot carrying a non-empty default
string IS pre-populated by `populateDefaults` (it is set to `true`),
contradicting the claim that boolean option slots are not pre-populated
from defaults. -/
theorem boolean_default_is_prepopulated :
    (populateDefaults [(gs "-B", infoBoolDef)] zeroStruct).map (fun st => st (gs "B")) =
      .ok (.scalar (.vBool true)) ∧
    zeroStruct (gs "B") = .zero :=
  ⟨rfl, rfl⟩

theorem convertToType_bool (info : FieldInfo) (hb : info.baseType = GoType.bool) :
    convertToType info = .ok (.vBool true) := by
  unfold convertToType convertValue
  rw [hb]

/-- C8 (amended): in standard mode, before any tokens are processed, every
non-collector option slot with a non-empty default string — boolean slots
included, which are set to `true` — is pre-populated from its default,
while collector slots and slots without a default are left untouched. -/
theorem populateDefaults_prepopulates (options : Options) (st st' : Struct)
    (h : populateDefaults options st = .ok st') :
    (∀ n, (∀ e ∈ options, e.2.name = n → (e.2.isSlice = true ∨ e.2.defaultval = [])) →
      st' n = st n) ∧
    (∀ e ∈ options, e.2.isSlice = false → e.2.defaultval ≠ [] →
      (∀ e2 ∈ options, e2.2.name = e.2.name → e2.2 = e.2) →
      ∃ v, convertToType e.2 = .ok v ∧ st' e.2.name = .scalar v) ∧
    (∀ e ∈ options, e.2.baseType = GoType.bool → e.2.isSlice = false →
      e.2.defaultval ≠ [] →
      (∀ e2 ∈ options, e2.2.name = e.2.name → e2.2 = e.2) →
      st' e.2.name = .scalar (.vBool true)) := by
  unfold populateDefaults at h
  have hwrite : ∀ e ∈ options, e.2.isSlice = false → e.2.defaultval ≠ [] →
      (∀ e2 ∈ options, e2.2.name = e.2.name → e2.2 = e.2) →
      ∃ v, convertToType e.2 = .ok v ∧ st' e.2.name = .scalar v := by
    intro e he hs hd huniq
    refine populateOptions_write _ e.2 st st' h ?_ hs ?_
    · refine List.mem_filter.mpr ⟨List.mem_map.mpr ⟨e, he, rfl⟩, ?_⟩
      simp [hs, hd]
    · intro j hj hjn
      obtain ⟨hjm, -⟩ := List.mem_filter.mp hj
      obtain ⟨e2, he2, he2j⟩ := List.mem_map.mp hjm
      rw [← he2j]
      exact huniq e2 he2 (by rw [he2j]; exact hjn)
  refine ⟨?_, hwrite, ?_⟩
  · intro n hn
    refine populateOptions_untouched _ st st' n h ?_
    intro i hi
    obtain ⟨him, hip⟩ := List.mem_filter.mp hi
    obtain ⟨e, he, hei⟩ := List.mem_map.mp him
    intro hin
    rcases hn e he (by rw [hei]; exact hin) with hsl | hdv
    · rw [hei] at hsl
      simp [hsl] at hip
    · rw [hei] at hdv
      simp [hdv] at hip
  · intro e he hb hs hd huniq
    obtain ⟨v, hcv, hw⟩ := hwrite e he hs hd huniq
    rw [convertToType_bool e.2 hb] at hcv
    rw [hw, ← Except.ok.inj hcv]

theorem populateDefaults_prepopulates_witness :
    stBC (gs "B") = .scalar (.vBool true) ∧ stBC (gs "X") = zeroStruct (gs "X") := by
  have h := populateDefaults_prepopulates optsBC zeroStruct stBC rfl
  exact ⟨h.2.2 (gs "-B", infoBoolDef) (by decide) (by decide) (by decide) (by decide)
           (by decide),
         h.1 (gs "X") (by decide)⟩

/-! ## Type-converter fallback and failure behavior (C9) -/

theorem timeParseLoop_empty_value (layout : GoStr) (acc : TimeVal)
    (h : layout ≠ []) : timeParseLoop layout [] acc = none := by
  rw [timeParseLoop.eq_def]
  split
  · rfl
  · rfl
  · rfl
  · rfl
  · rfl
  · rfl
  · rfl
  · exact absurd rfl h

theorem goTimeParse_empty_value (layout : GoStr) (h : layout ≠ []) :
    goTimeParse layout [] = none := by
  unfold goTimeParse
  rw [timeParseLoop_empty_value layout _ h]

/-- C9 counterexample: for the `String` kind an empty raw value with no
default converts successfully to the empty string instead of failing with a
conversion error as the claim states for every supported kind. -/
theorem string_empty_conversion_succeeds :
    convertToType infoStrEmpty = .ok (.vString []) ∧
    convertToType infoStrEmpty ≠ .error .conversionError :=
  ⟨rfl, fun h => Except.noConfusion
    (h.symm.trans (rfl : convertToType infoStrEmpty = .ok (.vString [])))⟩

/-- C9 (amended): the converter substitutes the slot's default string
whenever the raw value is empty, for every kind; the `Int`, `Float`,
`Time` and `Duration` kinds fail with a conversion error whenever the
effective input is empty with no default, or is invalid for the kind's
parser; the `String` kind never fails and yields the effective string
(possibly empty), and the `Bool` kind always yields `true`. -/
theorem convertToType_fallback_and_failures (info : FieldInfo) :
    (info.value = [] →
      convertToType info = convertToType { info with value := info.defaultval }) ∧
    ((info.baseType = GoType.int ∨ info.baseType = GoType.float64 ∨
      info.baseType = GoType.time ∨ info.baseType = GoType.duration) →
      info.value = [] → info.defaultval = [] →
      convertToType info = .error .conversionError) ∧
    (info.baseType = GoType.int →
      goAtoi (if info.value = [] then info.defaultval else info.value) = none →
      convertToType info = .error .conversionError) ∧
    (info.baseType = GoType.float64 →
      goParseFloatOk (if info.value = [] then info.defaultval else info.value) = false →
      convertToType info = .error .conversionError) ∧
    (info.baseType = GoType.time →
      goTimeParse (if info.format = [] then defaultTimeFormat else info.format)
        (if info.value = [] then info.defaultval else info.value) = none →
      convertToType info = .error .conversionError) ∧
    (info.baseType = GoType.duration →
      goParseDuration (if info.value = [] then info.defaultval else info.value) = none →
      convertToType info = .error .conversionError) ∧
    (info.baseType = GoType.string →
      convertToType info =
        .ok (.vString (if info.value = [] then info.defaultval else info.value))) ∧
    (info.baseType = GoType.bool → convertToType info = .ok (.vBool true)) := by
  refine ⟨?_, ?_, ?_, ?_, ?_, ?_, ?_, fun hb => convertToType_bool info hb⟩
  · intro hv
    unfold convertToType
    simp [hv, ite_self]
  · intro hk hv hd
    have heff : (if info.value = [] then info.defaultval else info.value) = [] := by
      simp [hv, hd]
    unfold convertToType
    rw [heff]
    rcases hk with hk | hk | hk | hk <;> rw [hk]
    · rfl
    · rfl
    · show (match goTimeParse (if info.format = [] then defaultTimeFormat else info.format)
                   [] with
            | some t => Except.ok (GoValue.vTime t)
            | none => Except.error GoError.conversionError) = .error .conversionError
      rw [goTimeParse_empty_value _ ?_]
      by_cases hf : info.format = []
      · simp [hf]
        decide
      · simp [hf]
    · rfl
  · intro hk hinv
    unfold convertToType convertValue
    rw [hk, hinv]
  · intro hk hinv
    unfold convertToType convertValue
    rw [hk, hinv]
    rfl
  · intro hk hinv
    unfold convertToType convertValue
    rw [hk]
    simp only
    rw [hinv]
  · intro hk hinv
    unfold convertToType convertValue
    rw [hk, hinv]
  · intro hk
    unfold convertToType convertValue
    rw [hk]

theorem convertToType_fallback_and_failures_witness :
    (convertToType infoIntEmpty =
      convertToType { infoIntEmpty with value := infoIntEmpty.defaultval }) ∧
    convertToType infoIntEmpty = .error .conversionError ∧
    convertToType infoStrEmpty =
      .ok (.vString (if infoStrEmpty.value = [] then infoStrEmpty.defaultval
                     else infoStrEmpty.value)) ∧
    convertToType infoBoolDef = .ok (.vBool true) :=
  ⟨(convertToType_fallback_and_failures infoIntEmpty).1 (by decide),
   (convertToType_fallback_and_failures infoIntEmpty).2.1 (Or.inl (by decide))
     (by decide) (by decide),
   (convertToType_fallback_and_failures infoStrEmpty).2.2.2.2.2.2.1 (by decide),
   (convertToType_fallback_and_failures infoBoolDef).2.2.2.2.2.2.2 (by decide)⟩

/-! ## The positional distributor without a collector (C6) -/

theorem list_decomp {α : Type} (l : List α) (i : Nat) (h : i < l.length) :
    l = l.take i ++ l.get ⟨i, h⟩ :: l.drop (i + 1) := by
  conv_lhs => rw [← List.take_append_drop i l]
  rw [List.drop_eq_getElem_cons h]
  rfl

theorem populatePositionals_no_collector_eq (positionals : List FieldInfo)
    (tokens : List GoStr) (st : Struct)
    (hns : ∀ p ∈ positionals, p.isSlice = false) :
    populatePositionals positionals tokens st =
      if positionals.length ≠ tokens.length then .error .positionalCountMismatch
      else assignFields 0 (positionals.zip tokens) st := by
  have hfil : positionals.filter (fun p => p.isSlice) = [] :=
    List.filter_eq_nil_iff.mpr (fun a ha => by simp [hns a ha])
  unfold populatePositionals
  simp only [hfil, List.length_nil]
  simp

theorem get_drop_eq {α : Type} (l : List α) (d i : Nat) (h : i < (l.drop d).length)
    (h2 : d + i < l.length) : (l.drop d).get ⟨i, h⟩ = l.get ⟨d + i, h2⟩ := by
  simp [List.get_eq_getElem, List.getElem_drop]

theorem get_take_eq {α : Type} (l : List α) (n i : Nat) (h : i < (l.take n).length)
    (h2 : i < l.length) : (l.take n).get ⟨i, h⟩ = l.get ⟨i, h2⟩ := by
  simp [List.get_eq_getElem, List.getElem_take]

/-- Per-index consequence of a successful `assignFields` run over zipped
slots and tokens with pairwise-distinct names: the i-th slot ends up
holding the converted i-th token. -/
theorem assignFields_zip_write (ps : List FieldInfo) (toks : List GoStr) (k : Nat)
    (st st' : Struct) (h : assignFields k (ps.zip toks) st = .ok st')
    (hns : ∀ p ∈ ps, p.isSlice = false)
    (hpw : List.Pairwise (fun a b => a.name ≠ b.name) ps)
    (i : Nat) (hi : i < ps.length) (hj : i < toks.length) :
    ∃ v, convertToType { ps.get ⟨i, hi⟩ with value := toks.get ⟨i, hj⟩ } = .ok v ∧
      st' (ps.get ⟨i, hi⟩).name = .scalar v := by
  have hplen : i < (ps.zip toks).length := by
    rw [List.length_zip]
    omega
  have hget : (ps.zip toks).get ⟨i, hplen⟩ = (ps.get ⟨i, hi⟩, toks.get ⟨i, hj⟩) := by
    simp [List.get_eq_getElem, List.getElem_zip]
  have hdecomp := list_decomp (ps.zip toks) i hplen
  rw [hdecomp, hget] at h
  have hlast : ∀ q ∈ (ps.zip toks).drop (i + 1),
      q.1.name ≠ (ps.get ⟨i, hi⟩).name := by
    intro q hq
    obtain ⟨j, hjlen, hqj⟩ := List.getElem_of_mem hq
    have hj2 : i + 1 + j < (ps.zip toks).length := by
      rw [List.length_drop] at hjlen
      omega
    have hb1 : i + 1 + j < ps.length := by
      rw [List.length_zip] at hj2
      omega
    have hq1 : q.1 = ps.get ⟨i + 1 + j, hb1⟩ := by
      rw [← hqj]
      simp [List.get_eq_getElem, List.getElem_drop, List.getElem_zip]
    rw [hq1]
    simp only [List.get_eq_getElem]
    exact Ne.symm (List.pairwise_iff_getElem.mp hpw i (i + 1 + j) hi hb1 (by omega))
  exact assignFields_write _ _ _ _ k st st' h (hns _ (List.get_mem ps i hi)) hlast

/-- C6 counterexample: with no collector and the token count equal to the
slot count, the distributor may still fail (here with a wrapped conversion
error), so "succeeds exactly when the counts are equal" is false. -/
theorem count_match_but_conversion_fails :
    populatePositionals [infoIntPos] [gs "abc"] zeroStruct =
      .error (.errorPopulatingPositional 0) ∧
    [infoIntPos].length = [gs "abc"].length :=
  ⟨rfl, rfl⟩

/-- C6 (amended): with no collector among the positional slots, the
distributor fails with the arity-mismatch error exactly when the token
count differs from the slot count; when the counts are equal it performs
the in-order assignments (i-th token to i-th slot), succeeding precisely
when every individual conversion succeeds. -/
theorem distributor_no_collector (positionals : List FieldInfo)
    (tokens : List GoStr) (st : Struct)
    (hns : ∀ p ∈ positionals, p.isSlice = false) :
    ((populatePositionals positionals tokens st = .error .positionalCountMismatch) ↔
      positionals.length ≠ tokens.length) ∧
    (positionals.length = tokens.length →
      populatePositionals positionals tokens st =
        assignFields 0 (positionals.zip tokens) st) ∧
    (∀ st', populatePositionals positionals tokens st = .ok st' →
      (∀ n, (∀ p ∈ positionals, p.name ≠ n) → st' n = st n) ∧
      (List.Pairwise (fun a b => a.name ≠ b.name) positionals →
        ∀ i (hi : i < positionals.length) (hj : i < tokens.length),
          ∃ v, convertToType { positionals.get ⟨i, hi⟩ with value := tokens.get ⟨i, hj⟩ }
                 = .ok v ∧
            st' (positionals.get ⟨i, hi⟩).name = .scalar v)) := by
  have heq := populatePositionals_no_collector_eq positionals tokens st hns
  refine ⟨?_, ?_, ?_⟩
  · rw [heq]
    by_cases hlen : positionals.length ≠ tokens.length
    · rw [if_pos hlen]
      exact iff_of_true rfl hlen
    · rw [if_neg hlen]
      refine iff_of_false ?_ hlen
      intro h
      obtain ⟨i, hi⟩ := assignFields_error_shape _ 0 st _ h
      simp at hi
  · intro hl
    rw [heq, if_neg (fun hne => hne hl)]
  · intro st' h
    rw [heq] at h
    by_cases hlen : positionals.length ≠ tokens.length
    · rw [if_pos hlen] at h
      exact absurd h (by simp)
    · rw [if_neg hlen] at h
      push_neg at hlen
      constructor
      · intro n hn
        exact assignFields_untouched _ 0 st st' n h
          (fun q hq => hn q.1 (List.of_mem_zip hq).1)
      · intro hpw i hi hj
        exact assignFields_zip_write positionals tokens 0 st st' h hns hpw i hi hj

theorem distributor_no_collector_witness :
    (populatePositionals [infoStrP, infoStrQ] [gs "u", gs "v"] zeroStruct =
      assignFields 0 ([infoStrP, infoStrQ].zip [gs "u", gs "v"]) zeroStruct) ∧
    (∃ v, convertToType { infoStrP with value := gs "u" } = .ok v ∧
      stPQ (gs "P") = .scalar v) := by
  have h := distributor_no_collector [infoStrP, infoStrQ] [gs "u", gs "v"] zeroStruct
    (by decide)
  refine ⟨h.2.1 rfl, ?_⟩
  exact (h.2.2 stPQ rfl).2 (by decide) 0 (by decide) (by decide)

/-! ## The positional distributor with one collector (C5) -/

theorem findSlicePos_no_slice (l : List FieldInfo) (h : ∀ p ∈ l, p.isSlice = false) :
    ∀ i pos, findSlicePos i l pos = pos := by
  induction l with
  | nil => intro i pos; rfl
  | cons p rest ih =>
    intro i pos
    have hp : p.isSlice = false := h p (List.mem_cons_self p rest)
    unfold findSlicePos
    rw [hp]
    simp only [Bool.false_eq_true, if_false]
    exact ih (fun q hq => h q (List.mem_cons_of_mem p hq)) (i + 1) pos

theorem findSlicePos_at (B A : List FieldInfo) (c : FieldInfo)
    (hB : ∀ p ∈ B, p.isSlice = false) (hc : c.isSlice = true)
    (hA : ∀ p ∈ A, p.isSlice = false) :
    ∀ i pos, findSlicePos i (B ++ c :: A) pos = i + B.length := by
  induction B with
  | nil =>
    intro i pos
    rw [List.nil_append]
    unfold findSlicePos
    rw [hc]
    simp only [if_true]
    rw [findSlicePos_no_slice A hA (i + 1) i]
    simp
  | cons b B ih =>
    intro i pos
    have hb : b.isSlice = false := hB b (List.mem_cons_self b _)
    rw [List.cons_append]
    unfold findSlicePos
    rw [hb]
    simp only [Bool.false_eq_true, if_false]
    rw [ih (fun q hq => hB q (List.mem_cons_of_mem b hq)) (i + 1) pos]
    simp only [List.length_cons]
    omega

theorem filter_slice_single (B A : List FieldInfo) (c : FieldInfo)
    (hB : ∀ p ∈ B, p.isSlice = false) (hc : c.isSlice = true)
    (hA : ∀ p ∈ A, p.isSlice = false) :
    (B ++ c :: A).filter (fun p => p.isSlice) = [c] := by
  rw [List.filter_append,
      List.filter_eq_nil_iff.mpr (fun a ha => by simp [hB a ha]),
      List.filter_cons_of_pos (by simp [hc]),
      List.filter_eq_nil_iff.mpr (fun a ha => by simp [hA a ha])]
  rfl

theorem getD_append_mid (B A : List FieldInfo) (c : FieldInfo) :
    (B ++ c :: A).getD B.length default = c := by
  induction B with
  | nil => rfl
  | cons b B ih =>
    rw [List.cons_append]
    simpa using ih

theorem drop_append_mid {α : Type} (B A : List α) (c : α) :
    (B ++ c :: A).drop (B.length + 1) = A := by
  have h1 : B ++ c :: A = (B ++ [c]) ++ A := by simp
  rw [h1, show B.length + 1 = (B ++ [c]).length by simp, List.drop_left]

theorem populatePositionals_one_collector_eq (B A : List FieldInfo) (c : FieldInfo)
    (tokens : List GoStr) (st : Struct)
    (hB : ∀ p ∈ B, p.isSlice = false) (hc : c.isSlice = true)
    (hA : ∀ p ∈ A, p.isSlice = false) :
    populatePositionals (B ++ c :: A) tokens st =
      if (tokens.length : Int) - B.length - A.length < 0 then
        .error .notEnoughPositionalTokens
      else
        match assignFields 0 (B.zip (tokens.take B.length)) st with
        | .error e => .error e
        | .ok st1 =>
          match assignCollector c
              ((tokens.drop B.length).take
                ((tokens.length : Int) - B.length - A.length).toNat) st1 with
          | .error e => .error e
          | .ok st2 =>
            assignFields (B.length + 1)
              (A.zip (tokens.drop (tokens.length - A.length))) st2 := by
  have hpos : findSlicePos 0 (B ++ c :: A) 0 = B.length := by
    simpa using findSlicePos_at B A c hB hc hA 0 0
  have hfil := filter_slice_single B A c hB hc hA
  have haft : (B ++ c :: A).length - (B.length + 1) = A.length := by
    simp only [List.length_append, List.length_cons]
    omega
  unfold populatePositionals
  simp only [hfil, List.length_cons, List.length_nil, hpos, haft, List.take_left,
    drop_append_mid, getD_append_mid]
  simp

/-- C5: when the positional slots hold exactly one collector, at index
p = |B|, the distributor fails with the arity error precisely when
tokenCount - p - (slotCount - p - 1) < 0; otherwise, on success, the first
p tokens went to the slots before the collector in order, the last
slotCount - p - 1 tokens to the slots after it in order, and the middle
tokens were appended to the collector in encounter order; in particular
slots [A, Collector, W] with tokens ["-1","1","2","3","7"] give A = "-1",
collector ["1","2","3"] and W = "7". -/
theorem distributor_one_collector :
    (∀ (B A : List FieldInfo) (c : FieldInfo) (tokens : List GoStr) (st : Struct),
      (∀ p ∈ B, p.isSlice = false) → c.isSlice = true → (∀ p ∈ A, p.isSlice = false) →
      List.Pairwise (fun a b => a.name ≠ b.name) (B ++ c :: A) →
      ((populatePositionals (B ++ c :: A) tokens st = .error .notEnoughPositionalTokens) ↔
        (tokens.length : Int) - B.length - A.length < 0) ∧
      (∀ st', populatePositionals (B ++ c :: A) tokens st = .ok st' →
        (∀ i (hi : i < B.length) (ht : i < tokens.length),
          ∃ v, convertToType { B.get ⟨i, hi⟩ with value := tokens.get ⟨i, ht⟩ } = .ok v ∧
            st' (B.get ⟨i, hi⟩).name = .scalar v) ∧
        (∃ vs : List GoValue,
          vs.length = tokens.length - B.length - A.length ∧
          (∀ j (hj : j < vs.length) (hjt : B.length + j < tokens.length),
            convertToType { c with value := tokens.get ⟨B.length + j, hjt⟩ } =
              .ok (vs.get ⟨j, hj⟩)) ∧
          st' c.name = List.foldl appendValue (st c.name) vs) ∧
        (∀ i (hi : i < A.length) (ht : tokens.length - A.length + i < tokens.length),
          ∃ v, convertToType { A.get ⟨i, hi⟩ with
                 value := tokens.get ⟨tokens.length - A.length + i, ht⟩ } = .ok v ∧
            st' (A.get ⟨i, hi⟩).name = .scalar v))) ∧
    (populatePositionals [posA, posColl, posW] exTokens zeroStruct).map
        (fun st => (st (gs "A"), st (gs "R"), st (gs "W"))) =
      .ok (.scalar (.vString (gs "-1")),
           .slice [.vString (gs "1"), .vString (gs "2"), .vString (gs "3")],
           .scalar (.vString (gs "7"))) := by
  refine ⟨?_, rfl⟩
  intro B A c tokens st hB hc hA hnames
  have heq := populatePositionals_one_collector_eq B A c tokens st hB hc hA
  obtain ⟨hpwB, hpwCA, hcross⟩ := List.pairwise_append.mp hnames
  obtain ⟨hcA, hpwA⟩ := List.pairwise_cons.mp hpwCA
  constructor
  · rw [heq]
    by_cases hbet : (tokens.length : Int) - B.length - A.length < 0
    · rw [if_pos hbet]
      exact iff_of_true rfl hbet
    · rw [if_neg hbet]
      refine iff_of_false ?_ hbet
      intro hcontra
      split at hcontra
      · rename_i e h1
        obtain ⟨i, hi⟩ := assignFields_error_shape _ _ _ _ h1
        rw [hi] at hcontra
        simp at hcontra
      · rename_i st1 h1
        split at hcontra
        · rename_i e h2
          rw [assignCollector_error_shape _ _ _ _ h2] at hcontra
          simp at hcontra
        · rename_i st2 h2
          obtain ⟨i, hi⟩ := assignFields_error_shape _ _ _ _ hcontra
          simp at hi
  · intro st' h
    rw [heq] at h
    by_cases hbet : (tokens.length : Int) - B.length - A.length < 0
    · rw [if_pos hbet] at h
      exact absurd h (by simp)
    · rw [if_neg hbet] at h
      split at h
      · exact absurd h (by simp)
      · rename_i st1 h1
        split at h
        · exact absurd h (by simp)
        · rename_i st2 h2
          refine ⟨?_, ?_, ?_⟩
          · -- slots before the collector
            intro i hi ht
            have ht' : i < (tokens.take B.length).length := by
              rw [List.length_take]
              omega
            obtain ⟨v, hcv, hw1⟩ :=
              assignFields_zip_write B (tokens.take B.length) 0 st st1 h1 hB hpwB i hi ht'
            rw [get_take_eq tokens B.length i ht' ht] at hcv
            refine ⟨v, hcv, ?_⟩
            have hBiC : (B.get ⟨i, hi⟩).name ≠ c.name :=
              hcross _ (List.get_mem B i hi) c (List.mem_cons_self c A)
            have hw2 : st2 (B.get ⟨i, hi⟩).name = st1 (B.get ⟨i, hi⟩).name :=
              assignCollector_untouched c _ st1 st2 _ h2 (Ne.symm hBiC)
            have hw3 : st' (B.get ⟨i, hi⟩).name = st2 (B.get ⟨i, hi⟩).name := by
              refine assignFields_untouched _ _ st2 st' _ h ?_
              intro q hq
              exact Ne.symm (hcross _ (List.get_mem B i hi) q.1
                (List.mem_cons_of_mem c (List.of_mem_zip hq).1))
            rw [hw3, hw2, hw1]
          · -- the collector
            obtain ⟨vs, hlen, hconv, hfold⟩ := assignCollector_writes c _ st1 st2 hc h2
            have hlen2 : ((tokens.drop B.length).take
                ((tokens.length : Int) - B.length - A.length).toNat).length =
                tokens.length - B.length - A.length := by
              rw [List.length_take, List.length_drop]
              omega
            have hst1c : st1 c.name = st c.name := by
              refine assignFields_untouched _ _ st st1 _ h1 ?_
              intro q hq
              exact hcross q.1 (List.of_mem_zip hq).1 c (List.mem_cons_self c A)
            have hstc : st' c.name = st2 c.name := by
              refine assignFields_untouched _ _ st2 st' _ h ?_
              intro q hq
              exact Ne.symm (hcA q.1 (List.of_mem_zip hq).1)
            refine ⟨vs, by omega, ?_, ?_⟩
            · intro j hj hjt
              have hj2 : j < ((tokens.drop B.length).take
                  ((tokens.length : Int) - B.length - A.length).toNat).length := by
                omega
              have hj3 : j < (tokens.drop B.length).length := by
                rw [List.length_drop]
                omega
              have := hconv j hj2 hj
              rw [get_take_eq (tokens.drop B.length) _ j hj2 hj3,
                  get_drop_eq tokens B.length j hj3 hjt] at this
              exact this
            · rw [hstc, hfold, hst1c]
          · -- slots after the collector
            intro i hi ht
            have ht' : i < (tokens.drop (tokens.length - A.length)).length := by
              rw [List.length_drop]
              omega
            obtain ⟨v, hcv, hw1⟩ :=
              assignFields_zip_write A (tokens.drop (tokens.length - A.length))
                (B.length + 1) st2 st' h hA hpwA i hi ht'
            rw [get_drop_eq tokens (tokens.length - A.length) i ht' ht] at hcv
            exact ⟨v, hcv, hw1⟩

theorem distributor_one_collector_witness :
    ((populatePositionals ([posA] ++ posColl :: [posW]) exTokens zeroStruct =
       .error .notEnoughPositionalTokens) ↔
      (exTokens.length : Int) - ([posA] : List FieldInfo).length -
        ([posW] : List FieldInfo).length < 0) ∧
    (∀ st', populatePositionals ([posA] ++ posColl :: [posW]) exTokens zeroStruct =
        .ok st' →
      (∀ i (hi : i < ([posA] : List FieldInfo).length) (ht : i < exTokens.length),
        ∃ v, convertToType { ([posA] : List FieldInfo).get ⟨i, hi⟩ with
               value := exTokens.get ⟨i, ht⟩ } = .ok v ∧
          st' (([posA] : List FieldInfo).get ⟨i, hi⟩).name = .scalar v) ∧
      (∃ vs : List GoValue,
        vs.length = exTokens.length - ([posA] : List FieldInfo).length -
          ([posW] : List FieldInfo).length ∧
        (∀ j (hj : j < vs.length)
            (hjt : ([posA] : List FieldInfo).length + j < exTokens.length),
          convertToType { posColl with
              value := exTokens.get ⟨([posA] : List FieldInfo).length + j, hjt⟩ } =
            .ok (vs.get ⟨j, hj⟩)) ∧
        st' posColl.name = List.foldl appendValue (zeroStruct posColl.name) vs) ∧
      (∀ i (hi : i < ([posW] : List FieldInfo).length)
          (ht : exTokens.length - ([posW] : List FieldInfo).length + i < exTokens.length),
        ∃ v, convertToType { ([posW] : List FieldInfo).get ⟨i, hi⟩ with
               value := exTokens.get
                 ⟨exTokens.length - ([posW] : List FieldInfo).length + i, ht⟩ } = .ok v ∧
          st' (([posW] : List FieldInfo).get ⟨i, hi⟩).name = .scalar v)) :=
  distributor_one_collector.1 [posA] [posW] posColl exTokens zeroStruct
    (by decide) (by decide) (by decide) (by decide)
